import Mathlib

/-!
Verification development for the ctapipe wavelet/tailcut image-cleaning
repository.  The two cleaning algorithms are shallowly embedded:

* `Tailcut.clean_image` (src/datapipe/denoising/tailcut_jd.py, lines 150-204):
  a pure two-threshold hysteresis filter on NumPy arrays.
* `WT.clean_image` (src/datapipe/denoising/wavelets_mrfilter.py, lines 80-314):
  a wrapper pipeline around an external denoising program, modeled as a pure
  function over an explicit environment describing the external program's
  behavior and the outcome of the file I/O surrounding it.

Images are grids of pixels.  A NumPy float pixel is modeled as either the
invalid marker NaN or an exact number: rationals for the Tailcut algorithm
(which performs only comparisons and multiplication by 0/1) and reals for the
wavelet pipeline (which applies log10, sqrt and powers).  The one IEEE
infinity the wavelet code itself creates — np.log10 at exactly 0 is minus
infinity (line 165) — is represented, in the file-domain pixel type `WT.Fx`
that models the scaled grid written to disk and the external program's
output; no other infinity arises on the modeled code paths and none is
represented in the image-domain pixel type `WT.Wx`.
-/

namespace Grid

/-- A 2-D image region: a list of rows.  NumPy arrays are rectangular; grids
built by the embedded operations preserve row lengths, and theorems that need
rectangularity state it explicitly. -/
abbrev TGrid (α : Type) := List (List α)

/-- In-place elementwise update of a prefix of `d` by `s`, as performed by the
NumPy slice assignments `d[:-1,:] |= m[1:,:]` and friends: element `i` of `d`
is combined with element `i` of `s`; elements of `d` beyond the length of `s`
are kept.  In NumPy the two slices always have equal length, so the
keep-the-rest case only closes the recursion. -/
def overlay (f : α → α → α) : List α → List α → List α
  | xs, [] => xs
  | [], _ :: _ => []
  | x :: xs, y :: ys => f x y :: overlay f xs ys

theorem overlay_getElem? (f : α → α → α) (xs ys : List α) (i : ℕ) :
    (overlay f xs ys)[i]? =
      match xs[i]?, ys[i]? with
      | some x, some y => some (f x y)
      | some x, none => some x
      | none, _ => none := by
  induction xs generalizing ys i with
  | nil => cases ys <;> simp [overlay]
  | cons x xs ih =>
    cases ys with
    | nil =>
      cases i with
      | zero => simp [overlay]
      | succ n => cases hx : xs[n]? <;> simp [overlay, hx]
    | cons y ys =>
      cases i with
      | zero => simp [overlay]
      | succ n => simpa [overlay] using ih ys n

@[simp] theorem overlay_length (f : α → α → α) (xs ys : List α) :
    (overlay f xs ys).length = xs.length := by
  induction xs generalizing ys with
  | nil => cases ys <;> simp [overlay]
  | cons x xs ih => cases ys <;> simp [overlay, ih]

/-- Elementwise map over a 2-D grid (a NumPy unary ufunc). -/
def map2 (f : α → β) (g : TGrid α) : TGrid β := g.map (List.map f)

/-- Elementwise combination of two same-shaped 2-D grids (a NumPy binary
ufunc such as `&` or `*`). -/
def zip2 (f : α → β → γ) (g : TGrid α) (h : TGrid β) : TGrid γ :=
  List.zipWith (List.zipWith f) g h

/-- The cell of a grid at row `i`, column `j`, if it exists. -/
def cellAt? (g : TGrid α) (i j : ℕ) : Option α := g[i]?.bind (fun r => r[j]?)

/-- The row lengths of a grid; two NumPy 2-D arrays have equal shape iff this
list (which also determines the number of rows) coincides. -/
def rowLens (g : TGrid α) : List ℕ := g.map List.length

/-- A grid is rectangular when all rows share one length; every NumPy 2-D
array is. -/
def Rect (g : TGrid α) : Prop := ∃ w, ∀ r ∈ g, r.length = w

theorem cellAt?_map2 (f : α → β) (g : TGrid α) (i j : ℕ) :
    cellAt? (map2 f g) i j = (cellAt? g i j).map f := by
  simp only [cellAt?, map2, List.getElem?_map]
  cases g[i]? <;> simp

theorem cellAt?_zip2 (f : α → β → γ) (g : TGrid α) (h : TGrid β) (i j : ℕ) :
    cellAt? (zip2 f g h) i j =
      match cellAt? g i j, cellAt? h i j with
      | some a, some b => some (f a b)
      | _, _ => none := by
  simp only [cellAt?, zip2, List.getElem?_zipWith]
  cases hg : g[i]? with
  | none => simp
  | some r =>
    cases hh : h[i]? with
    | none => cases r[j]? <;> simp
    | some s =>
      simp only [Option.some_bind]
      exact List.getElem?_zipWith

@[simp] theorem rowLens_map2 (f : α → β) (g : TGrid α) :
    rowLens (map2 f g) = rowLens g := by
  simp [rowLens, map2, Function.comp]

theorem grid_ext {g h : TGrid α} (hlen : rowLens g = rowLens h)
    (hcell : ∀ i j, cellAt? g i j = cellAt? h i j) : g = h := by
  have hrows : g.length = h.length := by
    have := congrArg List.length hlen
    simpa [rowLens] using this
  apply List.ext_getElem?
  intro i
  cases hgi : g[i]? with
  | none =>
    have hi : g.length ≤ i := by
      simpa using (List.getElem?_eq_none_iff).1 hgi
    have : h.length ≤ i := hrows ▸ hi
    simp [List.getElem?_eq_none_iff.2 this]
  | some r =>
    have hi : i < g.length := by
      by_contra hcon
      have : g.length ≤ i := Nat.le_of_not_lt hcon
      simp [List.getElem?_eq_none_iff.2 this] at hgi
    have hih : i < h.length := hrows ▸ hi
    obtain ⟨s, hhs⟩ : ∃ s, h[i]? = some s := ⟨h[i], List.getElem?_eq_getElem hih⟩
    rw [hhs]
    congr 1
    have hrw : r.length = s.length := by
      have h1 : (rowLens g)[i]? = some r.length := by
        simp [rowLens, List.getElem?_map, hgi]
      have h2 : (rowLens h)[i]? = some s.length := by
        simp [rowLens, List.getElem?_map, hhs]
      rw [hlen] at h1
      rw [h1] at h2
      exact (Option.some_injective _ h2)
    apply List.ext_getElem?
    intro j
    have hc := hcell i j
    simp only [cellAt?, hgi, hhs, Option.bind_some] at hc
    exact hc

end Grid

namespace Tailcut

open Grid

/-- A Tailcut pixel: NumPy float modeled as NaN or an exact rational.  The
Tailcut algorithm only compares pixels with thresholds and multiplies them by
a boolean mask, so rationals suffice. -/
inductive Px where
  | nan : Px
  | fin : ℚ → Px
deriving DecidableEq, Repr

/-- Comparison `pixel >= threshold` (lines 155-156).  IEEE comparisons with
NaN are false. -/
def Px.ge (x : Px) (t : ℚ) : Bool :=
  match x with
  | .nan => false
  | .fin q => t ≤ q

/-- Multiplication `pixel * mask_value` (line 202); a boolean mask cell acts
as 1 or 0.  IEEE NaN times anything (including 0) is NaN. -/
def Px.mulMask (x : Px) (b : Bool) : Px :=
  match x with
  | .nan => .nan
  | .fin q => .fin (q * (if b then 1 else 0))

/-- The elementwise operations the Tailcut algorithm needs on its cell types.
For a 2-D array a pixel cell is one `Px` and a mask cell one `Bool`; for an
array of rank 2+k the same code runs with cells that are rank-k blocks, every
operation acting elementwise on the block (NumPy ufunc broadcasting over the
trailing axes). -/
structure CellOps (π μ : Type) where
  ge : π → ℚ → μ
  orM : μ → μ → μ
  andM : μ → μ → μ
  mul : π → μ → π

/-- Threshold mask `img >= t` (lines 155-156). -/
def geMask (ops : CellOps π μ) (t : ℚ) (g : TGrid π) : TGrid μ :=
  map2 (fun x => ops.ge x t) g

/-- NumPy `d[:-1,:] |= m[1:,:]` (line 180): row `i` of `d` is or-merged with
row `i+1` of `m`. -/
def upMerge (ops : CellOps π μ) (d m : TGrid μ) : TGrid μ :=
  overlay (overlay ops.orM) d (m.drop 1)

/-- NumPy `d[1:,:] |= m[:-1,:]` (line 181): row `i` of `d` (for `i ≥ 1`) is
or-merged with row `i-1` of `m`. -/
def downMerge (ops : CellOps π μ) (d m : TGrid μ) : TGrid μ :=
  d.take 1 ++ overlay (overlay ops.orM) (d.drop 1) m

/-- NumPy `d[:,:-1] |= d[:,1:]` (line 183).  Both operands overlap the same
array; NumPy ufuncs (1.13+) detect the overlap and copy the input first, so
each row is combined with its own pre-update shift. -/
def leftMerge (ops : CellOps π μ) (d : TGrid μ) : TGrid μ :=
  d.map (fun r => overlay ops.orM r (r.drop 1))

/-- NumPy `d[:,1:] |= d[:,:-1]` (line 184), with the same overlap-copy
semantics as `leftMerge`. -/
def rightMerge (ops : CellOps π μ) (d : TGrid μ) : TGrid μ :=
  d.map (fun r => r.take 1 ++ overlay ops.orM (r.drop 1) r)

/-- Dilation of the high mask (lines 177-184): the mask is copied, or-merged
with its vertical shifts of the original mask, then with its own horizontal
shifts. -/
def dilateMask (ops : CellOps π μ) (m : TGrid μ) : TGrid μ :=
  rightMerge ops (leftMerge ops (downMerge ops (upMerge ops m m) m))

/-- The final mask `high_mask_dilated & low_mask` (line 188). -/
def finalMask (ops : CellOps π μ) (g : TGrid π) (hi lo : ℚ) : TGrid μ :=
  zip2 ops.andM (dilateMask ops (geMask ops hi g)) (geMask ops lo g)

/-- The cleaned image `img * final_mask` (line 202). -/
def cleanCore (ops : CellOps π μ) (g : TGrid π) (hi lo : ℚ) : TGrid π :=
  zip2 ops.mul g (finalMask ops g hi lo)

/-- Cell operations for a plain 2-D array. -/
def pxOps : CellOps Px Bool :=
  ⟨Px.ge, or, and, Px.mulMask⟩

@[simp] theorem pxOps_ge : pxOps.ge = Px.ge := rfl

@[simp] theorem pxOps_orM : pxOps.orM = or := rfl

@[simp] theorem pxOps_andM : pxOps.andM = and := rfl

@[simp] theorem pxOps_mul : pxOps.mul = Px.mulMask := rfl

/-- The final mask computed by `Tailcut.clean_image` on a 2-D image. -/
def final_mask (g : TGrid Px) (hi lo : ℚ) : TGrid Bool :=
  finalMask pxOps g hi lo

/-- Tailcut.clean_image (lines 150-204) on a 2-D image: threshold masks,
dilation of the high mask, conjunction with the low mask, multiplication of
the image by the final mask. -/
def clean_image (g : TGrid Px) (hi lo : ℚ) : TGrid Px :=
  cleanCore pxOps g hi lo

end Tailcut

namespace Tailcut

open Grid

/-- Value of a boolean mask at a position, false outside the mask's extent
(an out-of-range read never happens in NumPy; the default only totalizes the
function). -/
def bval (m : TGrid Bool) (i j : ℕ) : Bool := (cellAt? m i j).getD false

theorem overlay_or_getElem? (r s : List Bool) (j : ℕ) :
    (overlay or r s)[j]? = (r[j]?).map (fun b => b || (s[j]?).getD false) := by
  rw [overlay_getElem?]
  cases hr : r[j]? <;> cases hs : s[j]? <;> simp

theorem cellAt?_upMerge (d m : TGrid Bool) (i j : ℕ) :
    cellAt? (upMerge pxOps d m) i j =
      (cellAt? d i j).map (fun b => b || bval m (i + 1) j) := by
  simp only [cellAt?, upMerge, bval, pxOps]
  rw [overlay_getElem?]
  have hdrop : (m.drop 1)[i]? = m[i + 1]? := by
    rw [List.getElem?_drop]; congr 1; omega
  rw [hdrop]
  cases hd : d[i]? with
  | none => simp
  | some r =>
    cases hm : m[i + 1]? with
    | none => cases hr : r[j]? <;> simp
    | some s =>
      simp [overlay_or_getElem?]

theorem cellAt?_downMerge (d m : TGrid Bool) (i j : ℕ) :
    cellAt? (downMerge pxOps d m) i j =
      if i = 0 then cellAt? d i j
      else (cellAt? d i j).map (fun b => b || bval m (i - 1) j) := by
  simp only [cellAt?, downMerge, bval, pxOps]
  rw [List.getElem?_append]
  cases d with
  | nil =>
    have h0 : (overlay (overlay or) ([] : TGrid Bool) m) = [] := by
      cases m <;> rfl
    simp only [List.drop_nil, List.take_nil, h0]
    cases i <;> simp
  | cons r0 d =>
    have h1 : List.take 1 (r0 :: d) = [r0] := rfl
    rw [h1]
    cases i with
    | zero => simp
    | succ n =>
      have hlt : ¬ (n + 1 < ([r0] : TGrid Bool).length) := by simp
      rw [if_neg hlt, if_neg (Nat.succ_ne_zero n)]
      have h2 : List.drop 1 (r0 :: d) = d := rfl
      have h3 : (n + 1) - ([r0] : TGrid Bool).length = n := by simp
      rw [h2, h3, overlay_getElem?]
      cases hd : d[n]? with
      | none => simp [hd]
      | some r =>
        cases hm : m[n]? with
        | none => cases hr : r[j]? <;> simp [hd, hm, hr]
        | some s => simp [hd, hm, overlay_or_getElem?]

theorem cellAt?_leftMerge (d : TGrid Bool) (i j : ℕ) :
    cellAt? (leftMerge pxOps d) i j =
      (cellAt? d i j).map (fun b => b || bval d i (j + 1)) := by
  simp only [cellAt?, leftMerge, bval, pxOps, List.getElem?_map]
  cases hd : d[i]? with
  | none => simp
  | some r =>
    simp only [Option.map_some', Option.some_bind, overlay_or_getElem?]
    have hdrop : (r.drop 1)[j]? = r[j + 1]? := by
      rw [List.getElem?_drop]; congr 1; omega
    rw [hdrop]

theorem cellAt?_rightMerge (d : TGrid Bool) (i j : ℕ) :
    cellAt? (rightMerge pxOps d) i j =
      (cellAt? d i j).map (fun b => b || bval d i (j - 1)) := by
  simp only [cellAt?, rightMerge, bval, pxOps, List.getElem?_map]
  cases hd : d[i]? with
  | none => simp
  | some r =>
    simp only [Option.map_some', Option.some_bind]
    rw [List.getElem?_append]
    cases r with
    | nil => cases j <;> simp [overlay]
    | cons x r =>
      have h1 : List.take 1 (x :: r) = [x] := rfl
      rw [h1]
      cases j with
      | zero => simp
      | succ n =>
        have hlt : ¬ (n + 1 < ([x] : List Bool).length) := by simp
        rw [if_neg hlt]
        have h2 : List.drop 1 (x :: r) = r := rfl
        have h3 : (n + 1) - ([x] : List Bool).length = n := by simp
        rw [h2, h3, overlay_or_getElem?]
        cases hr : r[n]? <;> simp [hr]

end Tailcut

namespace Tailcut

open Grid

theorem rowLens_overlay_rows (f : μ → μ → μ) (d s : TGrid μ) :
    rowLens (overlay (overlay f) d s) = rowLens d := by
  induction d generalizing s with
  | nil => cases s <;> simp [overlay, rowLens]
  | cons r d ih =>
    cases s with
    | nil => simp [overlay]
    | cons t s => simp [overlay, rowLens, overlay_length] at ih ⊢; exact ih s

theorem rowLens_upMerge (ops : CellOps π μ) (d m : TGrid μ) :
    rowLens (upMerge ops d m) = rowLens d := by
  simp [upMerge, rowLens_overlay_rows]

theorem rowLens_downMerge (ops : CellOps π μ) (d m : TGrid μ) :
    rowLens (downMerge ops d m) = rowLens d := by
  simp only [downMerge, rowLens, List.map_append]
  have h1 : List.map List.length (overlay (overlay ops.orM) (d.drop 1) m)
      = List.map List.length (d.drop 1) := rowLens_overlay_rows ops.orM (d.drop 1) m
  rw [h1, ← List.map_append, List.take_append_drop]

theorem rowLens_leftMerge (ops : CellOps π μ) (d : TGrid μ) :
    rowLens (leftMerge ops d) = rowLens d := by
  simp [leftMerge, rowLens, List.map_map, Function.comp, overlay_length]

theorem rowLens_rightMerge (ops : CellOps π μ) (d : TGrid μ) :
    rowLens (rightMerge ops d) = rowLens d := by
  simp only [rightMerge, rowLens, List.map_map]
  apply List.map_congr_left
  intro r _
  simp only [Function.comp_apply, List.length_append, overlay_length]
  cases r with
  | nil => simp
  | cons a r => simp; omega

theorem rowLens_dilateMask (ops : CellOps π μ) (m : TGrid μ) :
    rowLens (dilateMask ops m) = rowLens m := by
  simp [dilateMask, rowLens_rightMerge, rowLens_leftMerge, rowLens_downMerge,
    rowLens_upMerge]

theorem rowLens_zip2 (f : α → β → γ) (g : TGrid α) (h : TGrid β)
    (hl : rowLens g = rowLens h) : rowLens (zip2 f g h) = rowLens g := by
  induction g generalizing h with
  | nil => rfl
  | cons r G ih =>
    cases h with
    | nil => simp [rowLens] at hl
    | cons s H =>
      simp only [rowLens, List.map_cons, List.cons.injEq] at hl
      simp only [zip2, List.zipWith_cons_cons, rowLens, List.map_cons,
        List.length_zipWith, List.cons.injEq]
      constructor
      · omega
      · exact ih H hl.2

theorem rowLens_geMask (ops : CellOps π μ) (t : ℚ) (g : TGrid π) :
    rowLens (geMask ops t g) = rowLens g := by
  simp [geMask]

theorem rowLens_final_mask (g : TGrid Px) (hi lo : ℚ) :
    rowLens (final_mask g hi lo) = rowLens g := by
  have h1 : rowLens (dilateMask pxOps (geMask pxOps hi g)) = rowLens g := by
    rw [rowLens_dilateMask, rowLens_geMask]
  have h2 : rowLens (geMask pxOps lo g) = rowLens g := rowLens_geMask _ _ _
  simpa [final_mask, finalMask, h2] using rowLens_zip2 _ _ _ (h1.trans h2.symm) |>.trans h1

end Tailcut

namespace Tailcut

open Grid

/-- Being within one cell along one axis. -/
def near (a i : ℕ) : Prop := a ≤ i + 1 ∧ i ≤ a + 1

theorem cellAt?_none_succ (g : TGrid α) (i x : ℕ) (h : cellAt? g i x = none) :
    cellAt? g i (x + 1) = none := by
  simp only [cellAt?] at h ⊢
  cases hg : g[i]? with
  | none => simp
  | some r =>
    rw [hg] at h
    simp only [Option.some_bind] at h ⊢
    rw [List.getElem?_eq_none_iff] at h ⊢
    omega

theorem bval_leftMerge (v : TGrid Bool) (i x : ℕ) :
    bval (leftMerge pxOps v) i x = (bval v i x || bval v i (x + 1)) := by
  rw [bval, cellAt?_leftMerge]
  cases hc : cellAt? v i x with
  | none =>
    have h2 := cellAt?_none_succ v i x hc
    simp [bval, hc, h2]
  | some b => simp [bval, hc]

theorem bval_vertical_iff (m : TGrid Bool) (i j : ℕ) :
    bval (downMerge pxOps (upMerge pxOps m m) m) i j = true ↔
      ((cellAt? m i j).isSome ∧ ∃ a, near a i ∧ bval m a j = true) := by
  rw [bval, cellAt?_downMerge]
  cases i with
  | zero =>
    rw [if_pos rfl, cellAt?_upMerge]
    cases hc : cellAt? m 0 j with
    | none => simp [hc]
    | some b =>
      have hb : bval m 0 j = b := by simp [bval, hc]
      simp only [Option.map_some', Option.getD_some, hc, Option.isSome_some,
        true_and]
      constructor
      · intro h
        rcases Bool.or_eq_true_iff.1 h with h1 | h1
        · exact ⟨0, by simp [near], by simp [hb, h1]⟩
        · exact ⟨1, by simp [near], h1⟩
      · rintro ⟨a, hnear, hab⟩
        have ha : a = 0 ∨ a = 1 := by
          rcases hnear with ⟨h1, h2⟩; omega
        rcases ha with rfl | rfl
        · rw [hb] at hab; simp [hab]
        · simp [hab]
  | succ n =>
    rw [if_neg (Nat.succ_ne_zero n), cellAt?_upMerge]
    cases hc : cellAt? m (n + 1) j with
    | none => simp [hc]
    | some b =>
      have hb : bval m (n + 1) j = b := by simp [bval, hc]
      simp only [Option.map_some', Option.getD_some, hc, Option.isSome_some,
        true_and, Nat.add_sub_cancel]
      constructor
      · intro h
        rcases Bool.or_eq_true_iff.1 h with h1 | h1
        · rcases Bool.or_eq_true_iff.1 h1 with h2 | h2
          · exact ⟨n + 1, by simp [near], by simp [hb, h2]⟩
          · exact ⟨n + 2, by simp [near], h2⟩
        · exact ⟨n, by simp [near]; omega, h1⟩
      · rintro ⟨a, hnear, hab⟩
        have ha : a = n ∨ a = n + 1 ∨ a = n + 2 := by
          rcases hnear with ⟨h1, h2⟩; omega
        rcases ha with rfl | rfl | rfl
        · simp [hab]
        · rw [hb] at hab; simp [hab]
        · simp [hab]

theorem bval_horizontal_iff (v : TGrid Bool) (i j : ℕ) :
    bval (rightMerge pxOps (leftMerge pxOps v)) i j = true ↔
      ((cellAt? v i j).isSome ∧ ∃ b, near b j ∧ bval v i b = true) := by
  rw [bval, cellAt?_rightMerge]
  cases hc : cellAt? v i j with
  | none =>
    have hnone : cellAt? (leftMerge pxOps v) i j = none := by
      rw [cellAt?_leftMerge, hc]; rfl
    simp [hnone, hc]
  | some c =>
    have hsome : cellAt? (leftMerge pxOps v) i j = some (c || bval v i (j + 1)) := by
      rw [cellAt?_leftMerge, hc]; rfl
    have hcv : bval v i j = c := by simp [bval, hc]
    rw [hsome]
    simp only [Option.map_some', Option.getD_some, hc, Option.isSome_some,
      true_and, bval_leftMerge]
    cases j with
    | zero =>
      constructor
      · intro h
        simp only [Nat.zero_sub, Nat.zero_add] at h
        rcases Bool.or_eq_true_iff.1 h with h1 | h1
        · rcases Bool.or_eq_true_iff.1 h1 with h2 | h2
          · exact ⟨0, by simp [near], by simp [hcv, h2]⟩
          · exact ⟨1, by simp [near], h2⟩
        · rcases Bool.or_eq_true_iff.1 h1 with h2 | h2
          · exact ⟨0, by simp [near], h2⟩
          · exact ⟨1, by simp [near], h2⟩
      · rintro ⟨b, hnear, hb⟩
        have hb01 : b = 0 ∨ b = 1 := by rcases hnear with ⟨h1, h2⟩; omega
        rcases hb01 with rfl | rfl
        · rw [hcv] at hb; simp [hb]
        · simp [hb]
    | succ n =>
      have hs1 : n + 1 - 1 = n := by omega
      rw [hs1]
      constructor
      · intro h
        rcases Bool.or_eq_true_iff.1 h with h1 | h1
        · rcases Bool.or_eq_true_iff.1 h1 with h2 | h2
          · exact ⟨n + 1, by simp [near], by simp [hcv, h2]⟩
          · exact ⟨n + 2, by simp [near], h2⟩
        · rcases Bool.or_eq_true_iff.1 h1 with h2 | h2
          · exact ⟨n, by simp [near]; omega, h2⟩
          · exact ⟨n + 1, by simp [near], h2⟩
      · rintro ⟨b, hnear, hb⟩
        have hb3 : b = n ∨ b = n + 1 ∨ b = n + 2 := by
          rcases hnear with ⟨h1, h2⟩; omega
        rcases hb3 with rfl | rfl | rfl
        · simp [hb]
        · rw [hcv] at hb; simp [hb]
        · simp [hb]

end Tailcut

namespace Tailcut

open Grid

theorem isSome_cellAt?_vertical (m : TGrid Bool) (i j : ℕ) :
    (cellAt? (downMerge pxOps (upMerge pxOps m m) m) i j).isSome
      = (cellAt? m i j).isSome := by
  rw [cellAt?_downMerge]
  cases i with
  | zero => rw [if_pos rfl, cellAt?_upMerge]; cases cellAt? m 0 j <;> rfl
  | succ n =>
    rw [if_neg (Nat.succ_ne_zero n), cellAt?_upMerge]
    cases cellAt? m (n + 1) j <;> rfl

/-- Pointwise characterization of the dilation (lines 177-184): on a
rectangular mask the dilated mask holds at an in-range position iff some mask
cell within the 8-connected one-ring neighborhood (including the cell itself)
holds. -/
theorem bval_dilate_iff (m : TGrid Bool) (hm : Rect m) (i j : ℕ) :
    bval (dilateMask pxOps m) i j = true ↔
      ((cellAt? m i j).isSome ∧
        ∃ a b, near a i ∧ near b j ∧ bval m a b = true) := by
  have hdef : dilateMask pxOps m
      = rightMerge pxOps (leftMerge pxOps (downMerge pxOps (upMerge pxOps m m) m)) := rfl
  rw [hdef, bval_horizontal_iff, isSome_cellAt?_vertical]
  constructor
  · rintro ⟨hs, b, hnear, hb⟩
    rw [bval_vertical_iff] at hb
    rcases hb with ⟨_, a, hna, hab⟩
    exact ⟨hs, a, b, hna, hnear, hab⟩
  · rintro ⟨hs, a, b, hna, hnb, hab⟩
    refine ⟨hs, b, hnb, ?_⟩
    rw [bval_vertical_iff]
    refine ⟨?_, a, hna, hab⟩
    rcases hm with ⟨w, hw⟩
    rcases Option.isSome_iff_exists.1 hs with ⟨x, hx⟩
    simp only [bval, cellAt?] at hab
    simp only [cellAt?] at hx ⊢
    cases hgi : m[i]? with
    | none => rw [hgi] at hx; simp at hx
    | some r =>
      rw [hgi] at hx
      simp only [Option.some_bind] at hx ⊢
      cases hga : m[a]? with
      | none => rw [hga] at hab; simp at hab
      | some s =>
        rw [hga] at hab
        simp only [Option.some_bind, Option.getD_eq_iff] at hab
        have hsb : s[b]? = some true := by
          cases hsb : s[b]? with
          | none => rw [hsb] at hab; simp at hab
          | some v => rw [hsb] at hab; simp at hab; rw [hab]
        have hblen : b < s.length := by
          rcases List.getElem?_eq_some_iff.1 hsb with ⟨hlt, _⟩
          exact hlt
        have hrs : r.length = s.length := by
          rw [hw r (List.getElem?_mem hgi), hw s (List.getElem?_mem hga)]
        have hbr : b < r.length := by omega
        have hrb : r[b]? = some r[b] := List.getElem?_eq_some_iff.2 ⟨hbr, rfl⟩
        simp [hrb]

/-- The dilation contains the original mask: wherever the high mask holds the
dilated mask holds. -/
theorem cellAt?_dilate_true (m : TGrid Bool) (i j : ℕ)
    (h : cellAt? m i j = some true) :
    cellAt? (dilateMask pxOps m) i j = some true := by
  have h1 : cellAt? (upMerge pxOps m m) i j = some true := by
    rw [cellAt?_upMerge, h]; simp
  have h2 : cellAt? (downMerge pxOps (upMerge pxOps m m) m) i j = some true := by
    rw [cellAt?_downMerge]
    by_cases hi : i = 0
    · rw [if_pos hi]; exact h1
    · rw [if_neg hi, h1]; simp
  have h3 : cellAt? (leftMerge pxOps (downMerge pxOps (upMerge pxOps m m) m)) i j
      = some true := by
    rw [cellAt?_leftMerge, h2]; simp
  have h4 := cellAt?_rightMerge (leftMerge pxOps (downMerge pxOps (upMerge pxOps m m) m)) i j
  rw [h3] at h4
  simpa using h4

end Tailcut

namespace Grid

theorem isSome_cellAt?_of_rowLens {g : TGrid α} {h : TGrid β}
    (hl : rowLens g = rowLens h) (i j : ℕ) :
    (cellAt? g i j).isSome = (cellAt? h i j).isSome := by
  have hi : (g[i]?).map List.length = (h[i]?).map List.length := by
    have h1 : (rowLens g)[i]? = (rowLens h)[i]? := by rw [hl]
    simpa [rowLens, List.getElem?_map] using h1
  simp only [cellAt?]
  cases hg : g[i]? with
  | none =>
    rw [hg] at hi
    cases hh : h[i]? with
    | none => simp
    | some s => rw [hh] at hi; simp at hi
  | some r =>
    rw [hg] at hi
    cases hh : h[i]? with
    | none => rw [hh] at hi; simp at hi
    | some s =>
      rw [hh] at hi
      simp only [Option.map_some', Option.some.injEq] at hi
      simp only [Option.some_bind]
      by_cases hj : j < r.length
      · have h1 : r[j]? = some r[j] := List.getElem?_eq_some_iff.2 ⟨hj, rfl⟩
        have h2 : s[j]? = some s[j] := List.getElem?_eq_some_iff.2 ⟨by omega, rfl⟩
        rw [h1, h2]; rfl
      · have h1 : r[j]? = none := List.getElem?_eq_none_iff.2 (by omega)
        have h2 : s[j]? = none := List.getElem?_eq_none_iff.2 (by omega)
        rw [h1, h2]; rfl

theorem Rect_of_rowLens {g : TGrid α} {h : TGrid β}
    (hl : rowLens g = rowLens h) (hr : Rect h) : Rect g := by
  rcases hr with ⟨w, hw⟩
  refine ⟨w, fun r hrg => ?_⟩
  rcases List.mem_iff_getElem?.1 hrg with ⟨i, hi⟩
  have h1 : (rowLens g)[i]? = some r.length := by
    simp [rowLens, List.getElem?_map, hi]
  rw [hl] at h1
  simp only [rowLens, List.getElem?_map] at h1
  cases hh : h[i]? with
  | none => rw [hh] at h1; simp at h1
  | some s =>
    rw [hh] at h1
    simp only [Option.map_some', Option.some.injEq] at h1
    rw [← h1]
    exact hw s (List.getElem?_mem hh)

theorem Rect_map2 (f : α → β) {g : TGrid α} (hr : Rect g) : Rect (map2 f g) :=
  Rect_of_rowLens (rowLens_map2 f g) hr

end Grid

namespace Tailcut

open Grid

theorem cellAt?_geMask (ops : CellOps π μ) (t : ℚ) (g : TGrid π) (i j : ℕ) :
    cellAt? (geMask ops t g) i j = (cellAt? g i j).map (fun x => ops.ge x t) :=
  cellAt?_map2 _ g i j

theorem cellAt?_final_mask (g : TGrid Px) (hi lo : ℚ) (i j : ℕ) :
    cellAt? (final_mask g hi lo) i j =
      match cellAt? (dilateMask pxOps (geMask pxOps hi g)) i j, cellAt? g i j with
      | some d, some x => some (d && Px.ge x lo)
      | _, _ => none := by
  have hdef : final_mask g hi lo
      = zip2 pxOps.andM (dilateMask pxOps (geMask pxOps hi g))
          (geMask pxOps lo g) := rfl
  rw [hdef, cellAt?_zip2, cellAt?_geMask]
  cases cellAt? (dilateMask pxOps (geMask pxOps hi g)) i j <;>
    cases cellAt? g i j <;> rfl

theorem cellAt?_clean_image (g : TGrid Px) (hi lo : ℚ) (i j : ℕ) :
    cellAt? (clean_image g hi lo) i j =
      match cellAt? g i j, cellAt? (final_mask g hi lo) i j with
      | some x, some b => some (Px.mulMask x b)
      | _, _ => none := by
  have hdef : clean_image g hi lo
      = zip2 pxOps.mul g (final_mask g hi lo) := rfl
  rw [hdef, cellAt?_zip2]
  cases cellAt? g i j <;> cases cellAt? (final_mask g hi lo) i j <;> rfl

theorem rowLens_clean_image (g : TGrid Px) (hi lo : ℚ) :
    rowLens (clean_image g hi lo) = rowLens g := by
  have h1 : rowLens (final_mask g hi lo) = rowLens g := rowLens_final_mask g hi lo
  have h2 := rowLens_zip2 Px.mulMask g (finalMask pxOps g hi lo) (by
    rw [show finalMask pxOps g hi lo = final_mask g hi lo from rfl, h1])
  exact h2

theorem isSome_final_mask (g : TGrid Px) (hi lo : ℚ) (i j : ℕ) :
    (cellAt? (final_mask g hi lo) i j).isSome = (cellAt? g i j).isSome :=
  isSome_cellAt?_of_rowLens (rowLens_final_mask g hi lo) i j

theorem isSome_dilate_geMask (g : TGrid Px) (t : ℚ) (i j : ℕ) :
    (cellAt? (dilateMask pxOps (geMask pxOps t g)) i j).isSome
      = (cellAt? g i j).isSome :=
  isSome_cellAt?_of_rowLens
    ((rowLens_dilateMask pxOps _).trans (rowLens_geMask pxOps t g)) i j

end Tailcut

/-- Claim C5: for every image and every threshold value t, Tailcut.clean_image
with high_threshold = low_threshold = t returns exactly image * (image >= t):
with equal thresholds the dilated high mask contains the low mask, so the
hysteresis conjunction collapses to the plain threshold mask. -/
theorem claim_C5 (img : Grid.TGrid Tailcut.Px) (t : ℚ) :
    Tailcut.clean_image img t t =
      Grid.zip2 Tailcut.Px.mulMask img (Tailcut.geMask Tailcut.pxOps t img) := by
  open Grid Tailcut in
  apply grid_ext
  · rw [rowLens_clean_image]
    have h1 : rowLens (geMask pxOps t img) = rowLens img := rowLens_geMask _ _ _
    exact (rowLens_zip2 Px.mulMask img (geMask pxOps t img) h1.symm).symm
  · intro i j
    rw [Tailcut.cellAt?_clean_image]
    rw [Grid.cellAt?_zip2, Tailcut.cellAt?_geMask]
    cases hx : Grid.cellAt? img i j with
    | none => simp
    | some x =>
      rw [Tailcut.cellAt?_final_mask, hx]
      cases hge : Tailcut.Px.ge x t with
      | true =>
        have hcell : Grid.cellAt? (Tailcut.geMask Tailcut.pxOps t img) i j
            = some true := by
          simp [Tailcut.cellAt?_geMask, hx, hge]
        have hd := Tailcut.cellAt?_dilate_true _ i j hcell
        rw [hd]
        simp [hge]
      | false =>
        have hs : (Grid.cellAt? (Tailcut.dilateMask Tailcut.pxOps
            (Tailcut.geMask Tailcut.pxOps t img)) i j).isSome = true := by
          rw [Tailcut.isSome_dilate_geMask, hx]; rfl
        rcases Option.isSome_iff_exists.1 hs with ⟨d, hd⟩
        rw [hd]
        simp [hge]

/-- Claim C7: for every image and thresholds with low_threshold >
high_threshold, the Tailcut output equals image * (image >= low_threshold):
the low mask is contained in the high mask, hence in its dilation, so the
hysteresis conjunction reduces to the low mask alone. -/
theorem claim_C7 (img : Grid.TGrid Tailcut.Px) (hi lo : ℚ) (h : lo > hi) :
    Tailcut.clean_image img hi lo =
      Grid.zip2 Tailcut.Px.mulMask img (Tailcut.geMask Tailcut.pxOps lo img) := by
  open Grid Tailcut in
  apply grid_ext
  · rw [rowLens_clean_image]
    have h1 : rowLens (geMask pxOps lo img) = rowLens img := rowLens_geMask _ _ _
    exact (rowLens_zip2 Px.mulMask img (geMask pxOps lo img) h1.symm).symm
  · intro i j
    rw [Tailcut.cellAt?_clean_image]
    rw [Grid.cellAt?_zip2, Tailcut.cellAt?_geMask]
    cases hx : Grid.cellAt? img i j with
    | none => simp
    | some x =>
      rw [Tailcut.cellAt?_final_mask, hx]
      cases hge : Tailcut.Px.ge x lo with
      | true =>
        have hgehi : Tailcut.Px.ge x hi = true := by
          cases x with
          | nan => simp [Tailcut.Px.ge] at hge
          | fin q =>
            simp only [Tailcut.Px.ge, decide_eq_true_eq] at hge ⊢
            exact le_trans (le_of_lt h) hge
        have hcell : Grid.cellAt? (Tailcut.geMask Tailcut.pxOps hi img) i j
            = some true := by
          simp [Tailcut.cellAt?_geMask, hx, hgehi]
        have hd := Tailcut.cellAt?_dilate_true _ i j hcell
        rw [hd]
        simp [hge]
      | false =>
        have hs : (Grid.cellAt? (Tailcut.dilateMask Tailcut.pxOps
            (Tailcut.geMask Tailcut.pxOps hi img)) i j).isSome = true := by
          rw [Tailcut.isSome_dilate_geMask, hx]; rfl
        rcases Option.isSome_iff_exists.1 hs with ⟨d, hd⟩
        rw [hd]
        simp [hge]

/-- Witness for claim C7 at a concrete input with low threshold 5 above high
threshold 2. -/
theorem claim_C7_witness :
    (5:ℚ) > 2 ∧
      Tailcut.clean_image [[Tailcut.Px.fin 3]] 2 5 =
        Grid.zip2 Tailcut.Px.mulMask [[Tailcut.Px.fin 3]]
          (Tailcut.geMask Tailcut.pxOps 5 [[Tailcut.Px.fin 3]]) :=
  ⟨by norm_num, claim_C7 [[Tailcut.Px.fin 3]] 2 5 (by norm_num)⟩

/-- Claim C4 is false on the code: a NaN pixel excluded by the final mask is
not zeroed, because IEEE NaN times 0 is NaN.  On the single-NaN image with
thresholds 10/5 the final mask excludes the pixel, yet the output pixel is
NaN, not zero. -/
theorem claim_C4_counterexample :
    Grid.cellAt? (Tailcut.final_mask [[Tailcut.Px.nan]] 10 5) 0 0 = some false ∧
      Grid.cellAt? (Tailcut.clean_image [[Tailcut.Px.nan]] 10 5) 0 0
        = some Tailcut.Px.nan ∧
      Tailcut.Px.nan ≠ Tailcut.Px.fin 0 := by
  refine ⟨by decide, by decide, by decide⟩

/-- Value an excluded pixel takes in the Tailcut output: multiplication by a
false mask cell zeroes a finite pixel and leaves a NaN pixel NaN. -/
def Tailcut.Px.excluded : Tailcut.Px → Tailcut.Px
  | Tailcut.Px.nan => Tailcut.Px.nan
  | Tailcut.Px.fin _ => Tailcut.Px.fin 0

/-- Claim C4 amended: every pixel excluded by the final mask is multiplied by
0, which zeroes it exactly when the input pixel is finite; a NaN input pixel
stays NaN (NaN times 0 is NaN). -/
theorem claim_C4_amended (img : Grid.TGrid Tailcut.Px) (hi lo : ℚ) (i j : ℕ)
    (x : Tailcut.Px) (hx : Grid.cellAt? img i j = some x)
    (hm : Grid.cellAt? (Tailcut.final_mask img hi lo) i j = some false) :
    Grid.cellAt? (Tailcut.clean_image img hi lo) i j
      = some (Tailcut.Px.excluded x) := by
  rw [Tailcut.cellAt?_clean_image, hx, hm]
  cases x with
  | nan => rfl
  | fin q => simp [Tailcut.Px.mulMask, Tailcut.Px.excluded]

/-- Witness for the amended claim C4 at a concrete finite pixel excluded by
the mask. -/
theorem claim_C4_amended_witness :
    Grid.cellAt? (Tailcut.clean_image [[Tailcut.Px.fin 3]] 10 5) 0 0
      = some (Tailcut.Px.excluded (Tailcut.Px.fin 3)) :=
  claim_C4_amended [[Tailcut.Px.fin 3]] 10 5 0 0 (Tailcut.Px.fin 3)
    (by decide) (by decide)

/-- Claim C6 is false as stated: re-cleaning with the same thresholds does
not always reproduce the same final mask.  On the
single-pixel image with value minus five, using both thresholds equal to
minus one, the first mask excludes the pixel and zeroes it; on the zeroed
output the mask includes the pixel (0 is above the threshold). -/
theorem claim_C6_counterexample :
    Tailcut.final_mask (Tailcut.clean_image [[Tailcut.Px.fin (-5)]] (-1) (-1))
        (-1) (-1)
      ≠ Tailcut.final_mask [[Tailcut.Px.fin (-5)]] (-1) (-1) := by
  have h1 : Tailcut.clean_image [[Tailcut.Px.fin (-5)]] (-1) (-1)
      = [[Tailcut.Px.mulMask (Tailcut.Px.fin (-5)) false]] := rfl
  have h2 : Tailcut.Px.mulMask (Tailcut.Px.fin (-5)) false = Tailcut.Px.fin 0 := by
    simp [Tailcut.Px.mulMask]
  have h3 : Tailcut.clean_image [[Tailcut.Px.fin (-5)]] (-1) (-1)
      = [[Tailcut.Px.fin 0]] := by rw [h1, h2]
  rw [h3]
  decide

namespace Tailcut

open Grid

theorem Px.ge_true_iff (x : Px) (t : ℚ) :
    Px.ge x t = true ↔ ∃ q, x = Px.fin q ∧ t ≤ q := by
  cases x with
  | nan => simp [Px.ge]
  | fin q => simp [Px.ge]

theorem Px.mulMask_true (x : Px) : Px.mulMask x true = x := by
  cases x <;> simp [Px.mulMask]

theorem Px.mulMask_false (x : Px) : Px.mulMask x false = Px.excluded x := by
  cases x <;> simp [Px.mulMask, Px.excluded]

theorem bval_true_iff (m : TGrid Bool) (i j : ℕ) :
    bval m i j = true ↔ cellAt? m i j = some true := by
  rw [bval]
  cases cellAt? m i j with
  | none => simp
  | some b => simp

theorem bval_geMask_true_iff (t : ℚ) (g : TGrid Px) (a b : ℕ) :
    bval (geMask pxOps t g) a b = true ↔
      ∃ y, cellAt? g a b = some y ∧ Px.ge y t = true := by
  rw [bval_true_iff, cellAt?_geMask]
  cases hy : cellAt? g a b with
  | none => simp
  | some y => simp

/-- A position selected by the final mask is selected again when the mask is
recomputed on the cleaned image with the same thresholds. -/
theorem final_mask_mono_self (img : TGrid Px) (hi lo : ℚ) (hr : Rect img)
    (i j : ℕ)
    (h : cellAt? (final_mask img hi lo) i j = some true) :
    cellAt? (final_mask (clean_image img hi lo) hi lo) i j = some true := by
  have hc : Rect (clean_image img hi lo) :=
    Rect_of_rowLens (rowLens_clean_image img hi lo) hr
  rw [cellAt?_final_mask] at h
  rcases hdd : cellAt? (dilateMask pxOps (geMask pxOps hi img)) i j with _ | d
  · rw [hdd] at h; simp at h
  rcases hx : cellAt? img i j with _ | x
  · rw [hdd, hx] at h; simp at h
  rw [hdd, hx] at h
  simp only [Option.some.injEq, Bool.and_eq_true] at h
  have hd : d = true := h.1
  have hlow : Px.ge x lo = true := h.2
  rcases (Px.ge_true_iff x lo).1 hlow with ⟨q, rfl, hlq⟩
  have hm1 : cellAt? (final_mask img hi lo) i j = some true := by
    rw [cellAt?_final_mask, hdd, hx, hd]
    simp [hlow]
  have hcc : cellAt? (clean_image img hi lo) i j = some (Px.fin q) := by
    rw [cellAt?_clean_image, hx, hm1]
    simp [Px.mulMask_true]
  have hrm : Rect (geMask pxOps hi (clean_image img hi lo)) :=
    Rect_map2 _ hc
  have hdil2 : bval (dilateMask pxOps
      (geMask pxOps hi (clean_image img hi lo))) i j = true := by
    rw [bval_dilate_iff _ hrm]
    refine ⟨?_, ?_⟩
    · rw [cellAt?_geMask, hcc]; rfl
    · by_cases hq : hi ≤ q
      · refine ⟨i, j, ⟨by omega, by omega⟩, ⟨by omega, by omega⟩, ?_⟩
        rw [bval_geMask_true_iff]
        exact ⟨Px.fin q, hcc, (Px.ge_true_iff _ _).2 ⟨q, rfl, hq⟩⟩
      · have hdt : bval (dilateMask pxOps (geMask pxOps hi img)) i j = true := by
          rw [bval_true_iff, hdd, hd]
        have hrgm : Rect (geMask pxOps hi img) := Rect_map2 _ hr
        rw [bval_dilate_iff _ hrgm] at hdt
        rcases hdt with ⟨_, a, b, hna, hnb, hab⟩
        rcases (bval_geMask_true_iff hi img a b).1 hab with ⟨y, hyc, hyhi⟩
        rcases (Px.ge_true_iff y hi).1 hyhi with ⟨p, rfl, hpq⟩
        have hylo : Px.ge (Px.fin p) lo = true :=
          (Px.ge_true_iff _ _).2 ⟨p, rfl, by linarith⟩
        have hgecell : cellAt? (geMask pxOps hi img) a b = some true := by
          rw [cellAt?_geMask, hyc]
          simp [hyhi]
        have hm1ab : cellAt? (final_mask img hi lo) a b = some true := by
          rw [cellAt?_final_mask, cellAt?_dilate_true _ a b hgecell, hyc]
          simp [hylo]
        have hcab : cellAt? (clean_image img hi lo) a b = some (Px.fin p) := by
          rw [cellAt?_clean_image, hyc, hm1ab]
          simp [Px.mulMask_true]
        refine ⟨a, b, hna, hnb, ?_⟩
        rw [bval_geMask_true_iff]
        exact ⟨Px.fin p, hcab, hyhi⟩
  have hsome : (cellAt? (dilateMask pxOps
      (geMask pxOps hi (clean_image img hi lo))) i j) = some true :=
    (bval_true_iff _ i j).1 hdil2
  rw [cellAt?_final_mask, hsome, hcc]
  simp [hlow]

end Tailcut

/-- Claim C6 amended: Tailcut is idempotent at the level of the cleaned
image: re-cleaning the cleaned image with the same thresholds returns the
same image, for every rectangular image and any threshold pair.  The final
mask of the second pass can differ from the first, but only at pixels that
the first pass already zeroed. -/
theorem claim_C6_amended (img : Grid.TGrid Tailcut.Px) (hi lo : ℚ)
    (hr : Grid.Rect img) :
    Tailcut.clean_image (Tailcut.clean_image img hi lo) hi lo
      = Tailcut.clean_image img hi lo := by
  open Grid Tailcut in
  apply grid_ext
  · rw [Tailcut.rowLens_clean_image, Tailcut.rowLens_clean_image]
  · intro i j
    rw [Tailcut.cellAt?_clean_image]
    cases hv : Grid.cellAt? (Tailcut.clean_image img hi lo) i j with
    | none => rfl
    | some v =>
      have hb2 : (Grid.cellAt? (Tailcut.final_mask
          (Tailcut.clean_image img hi lo) hi lo) i j).isSome = true := by
        rw [Tailcut.isSome_final_mask, hv]; rfl
      rcases Option.isSome_iff_exists.1 hb2 with ⟨b2, hb2e⟩
      rw [hb2e]
      have hx1 : (Grid.cellAt? img i j).isSome = true := by
        have := Grid.isSome_cellAt?_of_rowLens
          (Tailcut.rowLens_clean_image img hi lo) i j
        rw [hv] at this
        exact this.symm
      rcases Option.isSome_iff_exists.1 hx1 with ⟨x, hx⟩
      have hm1s : (Grid.cellAt? (Tailcut.final_mask img hi lo) i j).isSome
          = true := by
        rw [Tailcut.isSome_final_mask, hx]; rfl
      rcases Option.isSome_iff_exists.1 hm1s with ⟨b1, hb1e⟩
      have hveq : v = Tailcut.Px.mulMask x b1 := by
        rw [Tailcut.cellAt?_clean_image, hx, hb1e] at hv
        simpa using hv.symm
      cases b1 with
      | true =>
        have h2 := Tailcut.final_mask_mono_self img hi lo hr i j hb1e
        rw [hb2e] at h2
        have hb2t : b2 = true := by simpa using h2
        rw [hb2t]
        simp [Tailcut.Px.mulMask_true]
      | false =>
        rw [hveq, Tailcut.Px.mulMask_false]
        cases x with
        | nan => simp [Tailcut.Px.excluded, Tailcut.Px.mulMask]
        | fin q => simp [Tailcut.Px.excluded, Tailcut.Px.mulMask]

/-- Witness for the amended claim C6 on a concrete rectangular image. -/
theorem claim_C6_amended_witness :
    Tailcut.clean_image
        (Tailcut.clean_image [[Tailcut.Px.fin 12, Tailcut.Px.fin 6],
          [Tailcut.Px.fin 1, Tailcut.Px.nan]] 10 5) 10 5
      = Tailcut.clean_image [[Tailcut.Px.fin 12, Tailcut.Px.fin 6],
          [Tailcut.Px.fin 1, Tailcut.Px.nan]] 10 5 :=
  claim_C6_amended _ 10 5 ⟨2, by decide⟩

namespace Tailcut

open Grid

theorem rowLens_finalMask (ops : CellOps π μ) (g : TGrid π) (hi lo : ℚ) :
    rowLens (finalMask ops g hi lo) = rowLens g := by
  have h1 : rowLens (dilateMask ops (geMask ops hi g)) = rowLens g := by
    rw [rowLens_dilateMask, rowLens_geMask]
  have h2 : rowLens (geMask ops lo g) = rowLens g := rowLens_geMask _ _ _
  have h3 := rowLens_zip2 ops.andM (dilateMask ops (geMask ops hi g))
    (geMask ops lo g) (h1.trans h2.symm)
  rw [finalMask, h3, h1]

theorem rowLens_cleanCore (ops : CellOps π μ) (g : TGrid π) (hi lo : ℚ) :
    rowLens (cleanCore ops g hi lo) = rowLens g := by
  have h1 := rowLens_zip2 ops.mul g (finalMask ops g hi lo)
    (rowLens_finalMask ops g hi lo).symm
  rw [cleanCore, h1]

/-- A cell of a NumPy array of rank 2+k, viewed from the first two axes: a
rank-k block of scalars.  A rank-2 array has scalar (leaf) cells; each extra
trailing axis nests the blocks one level deeper. -/
inductive Block (α : Type) where
  | leaf : α → Block α
  | node : List (Block α) → Block α

mutual

/-- Elementwise map over a block (a NumPy unary ufunc broadcast over the
trailing axes). -/
def Block.bmap (f : α → β) : Block α → Block β
  | .leaf a => .leaf (f a)
  | .node bs => .node (Block.bmapList f bs)

def Block.bmapList (f : α → β) : List (Block α) → List (Block β)
  | [] => []
  | b :: bs => Block.bmap f b :: Block.bmapList f bs

end

mutual

/-- Elementwise combination of two same-shaped blocks (a NumPy binary ufunc
broadcast over the trailing axes).  The mixed-constructor and ragged cases
cannot occur between cells of one rectangular NumPy array; the left operand
is returned there only to totalize the function. -/
def Block.bzip (f : α → β → α) : Block α → Block β → Block α
  | .leaf a, .leaf b => .leaf (f a b)
  | .node xs, .node ys => .node (Block.bzipList f xs ys)
  | x, _ => x

def Block.bzipList (f : α → β → α) :
    List (Block α) → List (Block β) → List (Block α)
  | [], _ => []
  | x :: xs, [] => x :: xs
  | x :: xs, y :: ys => Block.bzip f x y :: Block.bzipList f xs ys

end

/-- The shape of a block: the block with its scalars erased. -/
def Block.shape (b : Block α) : Block Unit := Block.bmap (fun _ => ()) b

/-- Cell operations on rank-k blocks: each scalar operation broadcast over
the trailing axes. -/
def blockOps : CellOps (Block Px) (Block Bool) where
  ge := fun b t => Block.bmap (fun x => Px.ge x t) b
  orM := Block.bzip or
  andM := Block.bzip and
  mul := Block.bzip Px.mulMask

/-- A NumPy array of any rank, as consumed by Tailcut.clean_image.  Rank 0
and rank 1 are kept separate because the dilation's two-axis slicing
(lines 180-184) is an IndexError on them; every rank at least 2 is a 2-D
grid of rank-k blocks. -/
inductive NDArray where
  | d0 : Px → NDArray
  | d1 : List Px → NDArray
  | dN : TGrid (Block Px) → NDArray

inductive TcErr where
  | indexError : TcErr
deriving DecidableEq, Repr

/-- Tailcut.clean_image (lines 150-204) over an array of arbitrary rank.
The thresholding (lines 155-156) succeeds on any rank, but the dilation
buffer update `high_mask_dilated[:-1,:] |= high_mask[1:,:]` (line 180)
raises IndexError (too many indices) on 0-D and 1-D arrays, before any
result is produced.  On rank 2 and higher every operation is elementwise
over the first two axes and the call returns normally. -/
def clean_image_nd (a : NDArray) (hi lo : ℚ) : Except TcErr NDArray :=
  match a with
  | .d0 _ => .error .indexError
  | .d1 _ => .error .indexError
  | .dN g => .ok (.dN (cleanCore blockOps g hi lo))

end Tailcut


namespace Tailcut

open Grid

/-- Shapes of a list of blocks. -/
def Block.shapeList (bs : List (Block α)) : List (Block Unit) :=
  Block.bmapList (fun _ => ()) bs

@[simp] theorem Block.bmap_leaf (f : α → β) (a : α) :
    Block.bmap f (.leaf a) = .leaf (f a) := rfl

@[simp] theorem Block.bmap_node (f : α → β) (bs : List (Block α)) :
    Block.bmap f (.node bs) = .node (Block.bmapList f bs) := rfl

@[simp] theorem Block.bmapList_nil (f : α → β) :
    Block.bmapList f ([] : List (Block α)) = [] := rfl

@[simp] theorem Block.bmapList_cons (f : α → β) (b : Block α)
    (bs : List (Block α)) :
    Block.bmapList f (b :: bs) = Block.bmap f b :: Block.bmapList f bs := rfl

@[simp] theorem Block.bzip_leaf_leaf (f : α → β → α) (a : α) (b : β) :
    Block.bzip f (.leaf a) (.leaf b) = .leaf (f a b) := rfl

@[simp] theorem Block.bzip_node_node (f : α → β → α) (xs : List (Block α))
    (ys : List (Block β)) :
    Block.bzip f (.node xs) (.node ys) = .node (Block.bzipList f xs ys) := rfl

@[simp] theorem Block.bzip_leaf_node (f : α → β → α) (a : α)
    (ys : List (Block β)) :
    Block.bzip f (.leaf a) (.node ys) = .leaf a := rfl

@[simp] theorem Block.bzip_node_leaf (f : α → β → α) (xs : List (Block α))
    (b : β) :
    Block.bzip f (.node xs) (.leaf b) = .node xs := rfl

@[simp] theorem Block.bzipList_nil (f : α → β → α) (ys : List (Block β)) :
    Block.bzipList f [] ys = [] := rfl

@[simp] theorem Block.bzipList_cons_nil (f : α → β → α) (x : Block α)
    (xs : List (Block α)) :
    Block.bzipList f (x :: xs) [] = x :: xs := rfl

@[simp] theorem Block.bzipList_cons_cons (f : α → β → α) (x : Block α)
    (xs : List (Block α)) (y : Block β) (ys : List (Block β)) :
    Block.bzipList f (x :: xs) (y :: ys)
      = Block.bzip f x y :: Block.bzipList f xs ys := rfl

mutual

theorem Block.bmap_bmap2 (g : β → γ) (f : α → β) :
    ∀ b : Block α, Block.bmap g (Block.bmap f b) = Block.bmap (fun a => g (f a)) b
  | .leaf a => rfl
  | .node bs => by
      rw [Block.bmap_node, Block.bmap_node, Block.bmap_node,
        Block.bmapList_bmapList2 g f bs]

theorem Block.bmapList_bmapList2 (g : β → γ) (f : α → β) :
    ∀ bs : List (Block α),
      Block.bmapList g (Block.bmapList f bs)
        = Block.bmapList (fun a => g (f a)) bs
  | [] => rfl
  | b :: bs => by
      rw [Block.bmapList_cons, Block.bmapList_cons, Block.bmapList_cons,
        Block.bmap_bmap2 g f b, Block.bmapList_bmapList2 g f bs]

end

theorem Block.shape_bmap (f : α → β) (b : Block α) :
    (Block.bmap f b).shape = b.shape := by
  rw [Block.shape, Block.shape, Block.bmap_bmap2]

mutual

theorem Block.shape_bzip (f : α → β → α) :
    ∀ (x : Block α) (y : Block β), x.shape = y.shape →
      (Block.bzip f x y).shape = x.shape
  | .leaf a, .leaf b, _ => rfl
  | .node xs, .node ys, h => by
      have h2 : Block.bmapList (fun _ => ()) xs
          = Block.bmapList (fun _ => ()) ys := by
        rw [Block.shape, Block.shape, Block.bmap_node, Block.bmap_node] at h
        exact Block.node.inj h
      rw [Block.bzip_node_node, Block.shape, Block.shape, Block.bmap_node,
        Block.bmap_node, Block.shape_bzipList f xs ys h2]
  | .leaf _, .node _, _ => rfl
  | .node _, .leaf _, _ => rfl

theorem Block.shape_bzipList (f : α → β → α) :
    ∀ (xs : List (Block α)) (ys : List (Block β)),
      Block.bmapList (fun _ => ()) xs = Block.bmapList (fun _ => ()) ys →
      Block.bmapList (fun _ => ()) (Block.bzipList f xs ys)
        = Block.bmapList (fun _ => ()) xs
  | [], _, _ => rfl
  | x :: xs, [], h => by
      rw [Block.bmapList_cons, Block.bmapList_nil] at h
      exact absurd h (List.cons_ne_nil _ _)
  | x :: xs, y :: ys, h => by
      rw [Block.bmapList_cons, Block.bmapList_cons, List.cons.injEq] at h
      have hx : x.shape = y.shape := h.1
      rw [Block.bzipList_cons_cons, Block.bmapList_cons]
      rw [show Block.bmap (fun _ => ()) (Block.bzip f x y)
            = (Block.bzip f x y).shape from rfl,
        Block.shape_bzip f x y hx, Block.shape_bzipList f xs ys h.2]
      rfl

end

end Tailcut

namespace Tailcut

open Grid

theorem overlay_mem (f : α → α → α) :
    ∀ (xs ys : List α), ∀ r ∈ overlay f xs ys,
      r ∈ xs ∨ ∃ x ∈ xs, ∃ y ∈ ys, r = f x y
  | xs, [], r, hr => by left; simpa [overlay] using hr
  | [], _ :: _, r, hr => by simp [overlay] at hr
  | x :: xs, y :: ys, r, hr => by
      rw [show overlay f (x :: xs) (y :: ys) = f x y :: overlay f xs ys from rfl,
        List.mem_cons] at hr
      rcases hr with rfl | hr
      · right
        exact ⟨x, List.mem_cons_self x xs, y, List.mem_cons_self y ys, rfl⟩
      · rcases overlay_mem f xs ys r hr with h | ⟨a, ha, b, hb, rfl⟩
        · left; exact List.mem_cons_of_mem x h
        · right
          exact ⟨a, List.mem_cons_of_mem x ha, b, List.mem_cons_of_mem y hb, rfl⟩

theorem zipWith_mem (f : α → β → γ) :
    ∀ (xs : List α) (ys : List β), ∀ r ∈ List.zipWith f xs ys,
      ∃ x ∈ xs, ∃ y ∈ ys, r = f x y
  | [], _, r, hr => by simp at hr
  | _ :: _, [], r, hr => by simp at hr
  | x :: xs, y :: ys, r, hr => by
      rw [List.zipWith_cons_cons, List.mem_cons] at hr
      rcases hr with rfl | hr
      · exact ⟨x, List.mem_cons_self x xs, y, List.mem_cons_self y ys, rfl⟩
      · rcases zipWith_mem f xs ys r hr with ⟨a, ha, b, hb, rfl⟩
        exact ⟨a, List.mem_cons_of_mem x ha, b, List.mem_cons_of_mem y hb, rfl⟩

/-- All cells of a grid of blocks share the trailing-axes shape `s`; this is
exactly the rectangularity of a NumPy array in its axes beyond the first
two. -/
def CellsSh (s : Block Unit) (g : TGrid (Block α)) : Prop :=
  ∀ r ∈ g, ∀ c ∈ r, Block.shape c = s

theorem RowSh_overlay (s : Block Unit) (f : α → α → α)
    (r r' : List (Block α))
    (hr : ∀ c ∈ r, Block.shape c = s) (hr' : ∀ c ∈ r', Block.shape c = s) :
    ∀ c ∈ overlay (Block.bzip f) r r', Block.shape c = s := by
  intro c hc
  rcases overlay_mem _ r r' c hc with h | ⟨x, hx, y, hy, rfl⟩
  · exact hr c h
  · rw [Block.shape_bzip f x y ((hr x hx).trans (hr' y hy).symm)]
    exact hr x hx

theorem CellsSh_geMask (s : Block Unit) (t : ℚ) (g : TGrid (Block Px))
    (hs : CellsSh s g) : CellsSh s (geMask blockOps t g) := by
  intro r hr c hc
  rcases List.mem_map.1 hr with ⟨r0, hr0, rfl⟩
  rcases List.mem_map.1 hc with ⟨c0, hc0, rfl⟩
  rw [show blockOps.ge c0 t = Block.bmap (fun x => Px.ge x t) c0 from rfl,
    Block.shape_bmap]
  exact hs r0 hr0 c0 hc0

theorem CellsSh_upMerge (s : Block Unit) (d m : TGrid (Block Bool))
    (hd : CellsSh s d) (hm : CellsSh s m) :
    CellsSh s (upMerge blockOps d m) := by
  intro r hr
  rcases overlay_mem _ d (m.drop 1) r hr with h | ⟨x, hx, y, hy, rfl⟩
  · exact hd r h
  · exact RowSh_overlay s or x y (hd x hx) (hm y (List.mem_of_mem_drop hy))

theorem CellsSh_downMerge (s : Block Unit) (d m : TGrid (Block Bool))
    (hd : CellsSh s d) (hm : CellsSh s m) :
    CellsSh s (downMerge blockOps d m) := by
  intro r hr
  rcases List.mem_append.1 hr with h | h
  · exact hd r (List.mem_of_mem_take h)
  · rcases overlay_mem _ (d.drop 1) m r h with h2 | ⟨x, hx, y, hy, rfl⟩
    · exact hd r (List.mem_of_mem_drop h2)
    · exact RowSh_overlay s or x y (hd x (List.mem_of_mem_drop hx)) (hm y hy)

theorem CellsSh_leftMerge (s : Block Unit) (d : TGrid (Block Bool))
    (hd : CellsSh s d) : CellsSh s (leftMerge blockOps d) := by
  intro r hr
  rcases List.mem_map.1 hr with ⟨r0, hr0, rfl⟩
  exact RowSh_overlay s or r0 (r0.drop 1) (hd r0 hr0)
    (fun c hc => hd r0 hr0 c (List.mem_of_mem_drop hc))

theorem CellsSh_rightMerge (s : Block Unit) (d : TGrid (Block Bool))
    (hd : CellsSh s d) : CellsSh s (rightMerge blockOps d) := by
  intro r hr
  rcases List.mem_map.1 hr with ⟨r0, hr0, rfl⟩
  intro c hc
  rcases List.mem_append.1 hc with h | h
  · exact hd r0 hr0 c (List.mem_of_mem_take h)
  · exact RowSh_overlay s or (r0.drop 1) r0
      (fun c hc => hd r0 hr0 c (List.mem_of_mem_drop hc)) (hd r0 hr0) c h

theorem CellsSh_dilateMask (s : Block Unit) (m : TGrid (Block Bool))
    (hm : CellsSh s m) : CellsSh s (dilateMask blockOps m) :=
  CellsSh_rightMerge s _ (CellsSh_leftMerge s _
    (CellsSh_downMerge s _ _ (CellsSh_upMerge s _ _ hm hm) hm))

theorem CellsSh_zip2 (s : Block Unit) (f : Block α → Block β → Block α)
    (g : TGrid (Block α)) (h : TGrid (Block β))
    (hpres : ∀ x y, Block.shape x = s → Block.shape y = s →
      Block.shape (f x y) = s)
    (hg : CellsSh s g) (hh : CellsSh s h) : CellsSh s (zip2 f g h) := by
  intro r hr c hc
  rcases zipWith_mem _ g h r hr with ⟨x, hx, y, hy, rfl⟩
  rcases zipWith_mem f x y c hc with ⟨a, ha, b, hb, rfl⟩
  exact hpres a b (hg x hx a ha) (hh y hy b hb)

theorem CellsSh_cleanCore (s : Block Unit) (g : TGrid (Block Px))
    (hi lo : ℚ) (hs : CellsSh s g) :
    CellsSh s (cleanCore blockOps g hi lo) := by
  have hhi : CellsSh s (geMask blockOps hi g) := CellsSh_geMask s hi g hs
  have hlo : CellsSh s (geMask blockOps lo g) := CellsSh_geMask s lo g hs
  have hdil : CellsSh s (dilateMask blockOps (geMask blockOps hi g)) :=
    CellsSh_dilateMask s _ hhi
  have hfm : CellsSh s (finalMask blockOps g hi lo) := by
    refine CellsSh_zip2 s blockOps.andM _ _ ?_ hdil hlo
    intro x y hx hy
    rw [show blockOps.andM x y = Block.bzip and x y from rfl,
      Block.shape_bzip and x y (hx.trans hy.symm)]
    exact hx
  refine CellsSh_zip2 s blockOps.mul g _ ?_ hs hfm
  intro x y hx hy
  rw [show blockOps.mul x y = Block.bzip Px.mulMask x y from rfl,
    Block.shape_bzip Px.mulMask x y (hx.trans hy.symm)]
  exact hx

end Tailcut

/-- Claim C10 is false as stated for ranks below 2: on a 1-dimensional array
(and on a 0-dimensional one) Tailcut.clean_image raises IndexError at the
two-axis slice `high_mask_dilated[:-1,:] |= high_mask[1:,:]` instead of
returning normally. -/
theorem claim_C10_counterexample :
    Tailcut.clean_image_nd (Tailcut.NDArray.d1 [Tailcut.Px.fin 5]) 10 5
        = Except.error Tailcut.TcErr.indexError ∧
      Tailcut.clean_image_nd (Tailcut.NDArray.d0 (Tailcut.Px.fin 1)) 10 5
        = Except.error Tailcut.TcErr.indexError :=
  ⟨rfl, rfl⟩

/-- Claim C10 amended: Tailcut.clean_image is total on every array of rank
at least 2 — masking, dilation along the first two axes, and multiplication
all succeed elementwise — and returns an array of the same shape (same outer
two dimensions and the same trailing-axes shape at every cell); 0-D and 1-D
arrays instead raise IndexError at the dilation's two-axis slicing. -/
theorem claim_C10_amended (g : Grid.TGrid (Tailcut.Block Tailcut.Px))
    (hi lo : ℚ) (s : Tailcut.Block Unit) (hs : Tailcut.CellsSh s g) :
    ∃ g', Tailcut.clean_image_nd (Tailcut.NDArray.dN g) hi lo
        = Except.ok (Tailcut.NDArray.dN g') ∧
      Grid.rowLens g' = Grid.rowLens g ∧ Tailcut.CellsSh s g' :=
  ⟨Tailcut.cleanCore Tailcut.blockOps g hi lo, rfl,
    Tailcut.rowLens_cleanCore Tailcut.blockOps g hi lo,
    Tailcut.CellsSh_cleanCore s g hi lo hs⟩

/-- Witness for the amended claim C10 on a concrete 1 x 2 x 2 (rank 3)
array. -/
theorem claim_C10_amended_witness :
    ∃ g', Tailcut.clean_image_nd (Tailcut.NDArray.dN
        [[Tailcut.Block.node [Tailcut.Block.leaf (Tailcut.Px.fin 7),
            Tailcut.Block.leaf Tailcut.Px.nan],
          Tailcut.Block.node [Tailcut.Block.leaf (Tailcut.Px.fin 2),
            Tailcut.Block.leaf (Tailcut.Px.fin 11)]]]) 10 5
        = Except.ok (Tailcut.NDArray.dN g') ∧
      Grid.rowLens g'
        = Grid.rowLens [[Tailcut.Block.node [Tailcut.Block.leaf (Tailcut.Px.fin 7),
            Tailcut.Block.leaf Tailcut.Px.nan],
          Tailcut.Block.node [Tailcut.Block.leaf (Tailcut.Px.fin 2),
            Tailcut.Block.leaf (Tailcut.Px.fin 11)]]] ∧
      Tailcut.CellsSh (Tailcut.Block.node [Tailcut.Block.leaf (),
        Tailcut.Block.leaf ()]) g' := by
  apply claim_C10_amended
  intro r hr c hc
  rcases List.mem_singleton.1 hr with rfl
  rcases List.mem_cons.1 hc with rfl | hc2
  · rfl
  · rcases List.mem_singleton.1 hc2 with rfl
    rfl

namespace WT

open Grid

/-- A wavelet-pipeline pixel in the image domain (the caller's image before
the scale transform and the result after the scale inversion): a NumPy float
modeled as NaN or an exact real.  No modeled code path produces an infinity
in this domain — the scale inversions map every file-domain value, minus
infinity included, to NaN or to a finite real — so infinities are not
represented here. -/
inductive Wx where
  | nan : Wx
  | fin : ℝ → Wx

/-- NumPy isnan (line 137). -/
def Wx.isNan : Wx → Bool
  | .nan => true
  | .fin _ => false

/-- Scalar addition broadcast over the image (line 157); NaN propagates. -/
noncomputable def Wx.add (o : ℝ) : Wx → Wx
  | .nan => .nan
  | .fin v => .fin (v + o)

/-- Subtraction of a (possibly NaN) scalar (lines 280, 287); NaN
propagates. -/
noncomputable def Wx.sub (x m : Wx) : Wx :=
  match x, m with
  | .fin a, .fin b => .fin (a - b)
  | _, _ => .nan

/-- A wavelet-pipeline pixel in the file domain: a value of the scaled grid
written to the temporary input FITS file, or of the grid the external
program writes back.  np.log10 at exactly 0 (line 165) is minus infinity,
which the FITS round trip preserves, so minus infinity is represented here.
Positive infinity is produced by no modeled operation (log10 and sqrt of
finite values, and the external output as idealized throughout this file)
and is not represented. -/
inductive Fx where
  | nan : Fx
  | ninf : Fx
  | fin : ℝ → Fx

/-- Passage of an image-domain value into the file domain (images.save,
line 178, is value-preserving). -/
def Wx.toFx : Wx → Fx
  | .nan => .nan
  | .fin v => .fin v

/-- NumPy log10 (line 165): base-10 logarithm — NaN on negative arguments,
minus infinity at exactly 0 (the code comment on that line says NaN for all
arguments at or below 0, which is wrong about the boundary). -/
noncomputable def Wx.log10 : Wx → Fx
  | .nan => .nan
  | .fin v => if v < 0 then .nan else if v = 0 then .ninf else .fin (Real.logb 10 v)

/-- NumPy sqrt (line 171): square root, NaN on negative arguments; sqrt
creates no infinity from a finite argument. -/
noncomputable def Wx.sqrtW : Wx → Fx
  | .nan => .nan
  | .fin v => if v < 0 then .nan else .fin (Real.sqrt v)

/-- NumPy power with a fixed base greater than 1 (lines 271, 275): base to
the elementwise power, read back into the image domain; NaN propagates, and
the base raised to minus infinity is 0. -/
noncomputable def Fx.powW (b : ℝ) : Fx → Wx
  | .nan => .nan
  | .ninf => .fin 0
  | .fin v => .fin (b ^ v)

/-- Passage of a file-domain value back to the image domain by the
do-nothing branch of the scale inversion (lines 268-275 leave the loaded
grid untouched for the linear scale).  A finite value or NaN is preserved.
Minus infinity cannot reach this branch on a modeled path — the linear
scale writes no infinity to the input file, and the external output is
idealized as infinity-free — and is collapsed to the invalid marker only to
totalize the function (NumPy itself would keep it as minus infinity, which
`Wx` does not represent). -/
def Fx.toWx : Fx → Wx
  | .nan => .nan
  | .ninf => .nan
  | .fin v => .fin v

/-- An image for the wavelet pipeline (image domain). -/
abbrev WGrid := TGrid Wx

/-- A grid in the file domain: the scaled image as written to the input
FITS file, and the external program's output as read back. -/
abbrev FGrid := TGrid Fx

/-- Noise injection (lines 137-145): each NaN pixel, in row-major order, is
replaced by the next sample drawn from the noise distribution; `k` counts
the samples consumed so far. -/
def injectRow (ns : ℕ → ℝ) : List Wx → ℕ → List Wx × ℕ
  | [], k => ([], k)
  | .nan :: xs, k =>
      let p := injectRow ns xs (k + 1)
      (.fin (ns k) :: p.1, p.2)
  | .fin v :: xs, k =>
      let p := injectRow ns xs k
      (.fin v :: p.1, p.2)

def injectGrid (ns : ℕ → ℝ) : WGrid → ℕ → WGrid × ℕ
  | [], k => ([], k)
  | r :: rs, k =>
      let p := injectRow ns r k
      let q := injectGrid ns rs p.2
      (p.1 :: q.1, q.2)

/-- Scale transform (lines 161-172) composed with the passage into the file
domain (the grid is written to the input FITS file right after, line 178):
log10 for the log scale, sqrt for the sqrt scale, and for any other scale
string the identity — the values are carried into the file domain
unchanged. -/
noncomputable def applyScale (s : String) (g : WGrid) : FGrid :=
  if s = "log" then map2 Wx.log10 g
  else if s = "sqrt" then map2 Wx.sqrtW g
  else map2 Wx.toFx g

/-- Scale inversion (lines 268-275) composed with the passage out of the
file domain: 10 to the elementwise power for the log scale and 2 to the
elementwise power for the sqrt scale (the source inverts sqrt with base 2,
not by squaring); the do-nothing branch passes the loaded values through
unchanged (`Fx.toWx`). -/
noncomputable def invertScale (s : String) (g : FGrid) : WGrid :=
  if s = "log" then map2 (Fx.powW 10) g
  else if s = "sqrt" then map2 (Fx.powW 2) g
  else map2 Fx.toWx g

/-- The list of finite pixel values of an image. -/
def finiteVals (g : WGrid) : List ℝ :=
  g.flatten.filterMap (fun x => match x with | .nan => none | .fin v => some v)

noncomputable def listMin : List ℝ → Option ℝ :=
  List.foldr (fun v acc => match acc with
    | none => some v
    | some w => some (min v w)) none

/-- NumPy nanmin (line 287): minimum over the finite values, NaN when there
is none. -/
noncomputable def nanmin (g : WGrid) : Wx :=
  match listMin (finiteVals g) with
  | none => .nan
  | some m => .fin m

/-- The correction offset (lines 284-288): subtract the image-wide nanmin,
then set every finite pixel strictly below 1.0 to 0. -/
noncomputable def correctionStep (g : WGrid) : WGrid :=
  let g1 := map2 (fun x => Wx.sub x (nanmin g)) g
  map2 (fun x => match x with
    | Wx.nan => Wx.nan
    | Wx.fin v => if v < 1 then Wx.fin 0 else Wx.fin v) g1

/-- Pipeline failure modes: WrongDimensionError raised on a non-2-D external
output (line 259), exceptions propagated from writing or reading the
temporary FITS files (lines 182-184, 248-250), and the IndexError NumPy
raises at `cleaned_img[nan_mask] = np.nan` (line 264) when the external
output's 2-D shape differs from the input's. -/
inductive WtErr where
  | wrongDimension : WtErr
  | saveFailed : WtErr
  | loadFailed : WtErr
  | indexMismatch : WtErr
deriving DecidableEq, Repr

/-- Restoration of invalid markers (line 264): boolean-mask assignment
requires the mask's shape to equal the array's, else IndexError; where the
mask holds the pixel becomes NaN. -/
def restoreNan (g : FGrid) (mask : TGrid Bool) : Except WtErr FGrid :=
  if rowLens g = rowLens mask then
    .ok (zip2 (fun x b => if b then Fx.nan else x) g mask)
  else .error .indexMismatch

/-- What the external program left at the output path, as read back by
images.load (line 244): an array of some rank.  Rank 3 outputs are read as a
list of 2-D grids; only the rank matters past the dimension check. -/
inductive NDOut where
  | d1 : List Fx → NDOut
  | d2 : FGrid → NDOut
  | d3 : List FGrid → NDOut

/-- The parameters of WaveletTransform.clean_image that shape the modeled
pipeline (lines 80-109).  The remaining keyword parameters only compose the
external command line and do not affect the data path. -/
structure WtParams where
  suppress_last_scale : Bool
  kill_isolated_pixels : Bool
  offset_after_calibration : Option ℝ
  correction_offset : Bool
  input_image_scale : String
  inject_noise : Bool

/-- The environment of one clean_image call: the behavior of everything
outside the function's own code.  `noise` gives the samples that
noise_distribution.rvs would return, in order; `saveOk` tells whether
writing the input FITS file succeeds; `extProgram` maps the grid stored in
the input file to the array found in the output file afterwards (none when
the output file is missing or unreadable, making images.load raise);
`killFn` is the scipy kill_isolated_pixels collaborator
(datapipe.image.kill_isolated_pixels, outside this repository's cleaning
sources). -/
structure WtEnv where
  noise : ℕ → ℝ
  saveOk : Bool
  extProgram : FGrid → Option NDOut
  killFn : WGrid → WGrid

/-- The observable outcome of a clean_image call: the returned grid or the
exception, plus whether each temporary file still exists on disk when the
call completes. -/
structure WtOutcome where
  result : Except WtErr WGrid
  inFileRemains : Bool
  outFileRemains : Bool

/-- WaveletTransform.clean_image (lines 119-314) on a 2-D input image, with
kill-isolated-pixels statistics (lines 292-299, pure diagnostics) elided.
Steps in source order: record the NaN mask (line 137); inject noise into NaN
pixels when a distribution is supplied (lines 143-145); add the calibration
offset (line 157); apply the input scale (lines 161-172); write the input
file (line 178; on failure the exception propagates and no file is left);
run the external program and read its output (lines 232, 244; a missing or
unreadable output propagates the read exception, leaving the input file on
disk); delete both temporary files (lines 254-255); check the output is 2-D
(line 259); force NaN back at the recorded mask (line 264); invert the
scale (lines 268-275); subtract the offset unless the last scale was
suppressed (lines 279-280); apply the correction offset when requested
(lines 284-288); optionally replace the result with the kill-isolated-pixels
collaborator's output (lines 301-305). -/
noncomputable def clean_image (p : WtParams) (env : WtEnv) (img : WGrid) :
    WtOutcome :=
  let nan_mask := map2 Wx.isNan img
  let img1 := if p.inject_noise then (injectGrid env.noise img 0).1 else img
  let img2 := match p.offset_after_calibration with
    | some o => map2 (Wx.add o) img1
    | none => img1
  let img3 := applyScale p.input_image_scale img2
  if env.saveOk = false then ⟨.error .saveFailed, false, false⟩
  else
    match env.extProgram img3 with
    | none => ⟨.error .loadFailed, true, false⟩
    | some out =>
      match out with
      | .d2 g =>
        match restoreNan g nan_mask with
        | .error e => ⟨.error e, false, false⟩
        | .ok g1 =>
          let g2 := invertScale p.input_image_scale g1
          let g3 := match p.offset_after_calibration with
            | some o =>
                if p.suppress_last_scale then g2
                else map2 (fun x => Wx.sub x (.fin o)) g2
            | none => g2
          let g4 := if p.correction_offset then correctionStep g3 else g3
          let g5 := if p.kill_isolated_pixels then env.killFn g4 else g4
          ⟨.ok g5, false, false⟩
      | _ => ⟨.error .wrongDimension, false, false⟩

end WT

namespace WT

open Grid

theorem injectRow_length (ns : ℕ → ℝ) :
    ∀ (r : List Wx) (k : ℕ), (injectRow ns r k).1.length = r.length
  | [], _ => rfl
  | .nan :: xs, k => by
      rw [injectRow]
      simpa using injectRow_length ns xs (k + 1)
  | .fin v :: xs, k => by
      rw [injectRow]
      simpa using injectRow_length ns xs k

theorem rowLens_injectGrid (ns : ℕ → ℝ) :
    ∀ (g : WGrid) (k : ℕ), rowLens (injectGrid ns g k).1 = rowLens g
  | [], _ => rfl
  | r :: rs, k => by
      rw [injectGrid]
      simp only [rowLens, List.map_cons]
      rw [injectRow_length]
      have := rowLens_injectGrid ns rs (injectRow ns r k).2
      simp only [rowLens] at this
      rw [this]

theorem injectRow_fin (ns : ℕ → ℝ) :
    ∀ (r : List Wx) (k j : ℕ) (v : ℝ), r[j]? = some (Wx.fin v) →
      (injectRow ns r k).1[j]? = some (Wx.fin v)
  | [], _, j, v, h => by simp at h
  | .nan :: xs, k, 0, v, h => by simp at h
  | .nan :: xs, k, j + 1, v, h => by
      rw [injectRow]
      simpa using injectRow_fin ns xs (k + 1) j v (by simpa using h)
  | .fin w :: xs, k, 0, v, h => by
      rw [injectRow]
      simpa using h
  | .fin w :: xs, k, j + 1, v, h => by
      rw [injectRow]
      simpa using injectRow_fin ns xs k j v (by simpa using h)

theorem injectGrid_fin (ns : ℕ → ℝ) :
    ∀ (g : WGrid) (k i j : ℕ) (v : ℝ), cellAt? g i j = some (Wx.fin v) →
      cellAt? (injectGrid ns g k).1 i j = some (Wx.fin v)
  | [], _, i, j, v, h => by simp [cellAt?] at h
  | r :: rs, k, 0, j, v, h => by
      rw [injectGrid]
      simp only [cellAt?, List.getElem?_cons_zero, Option.some_bind] at h ⊢
      exact injectRow_fin ns r k j v h
  | r :: rs, k, i + 1, j, v, h => by
      rw [injectGrid]
      simp only [cellAt?, List.getElem?_cons_succ] at h ⊢
      exact injectGrid_fin ns rs (injectRow ns r k).2 i j v h

theorem rowLens_applyScale (s : String) (g : WGrid) :
    rowLens (applyScale s g) = rowLens g := by
  unfold applyScale
  split_ifs <;> simp

theorem rowLens_invertScale (s : String) (g : FGrid) :
    rowLens (invertScale s g) = rowLens g := by
  unfold invertScale
  split_ifs <;> simp

theorem rowLens_correctionStep (g : WGrid) :
    rowLens (correctionStep g) = rowLens g := by
  unfold correctionStep
  simp

theorem restoreNan_ok {g : FGrid} {mask : TGrid Bool} {g1 : FGrid}
    (h : restoreNan g mask = .ok g1) :
    rowLens g = rowLens mask ∧
      g1 = zip2 (fun x b => if b then Fx.nan else x) g mask := by
  unfold restoreNan at h
  split_ifs at h with hcond
  · exact ⟨hcond, (Except.ok.inj h).symm⟩

theorem listMin_spec :
    ∀ (l : List ℝ), l ≠ [] →
      ∃ m, listMin l = some m ∧ m ∈ l ∧ ∀ v ∈ l, m ≤ v
  | [], h => absurd rfl h
  | [v], _ => ⟨v, rfl, List.mem_singleton.2 rfl, by simp⟩
  | v :: w :: l, _ => by
      rcases listMin_spec (w :: l) (List.cons_ne_nil w l) with ⟨m, hm, hmem, hle⟩
      refine ⟨min v m, ?_, ?_, ?_⟩
      · rw [show listMin (v :: w :: l)
            = (match listMin (w :: l) with
               | none => some v
               | some u => some (min v u)) from rfl, hm]
      · rcases le_total v m with h | h
        · rw [min_eq_left h]; exact List.mem_cons_self v _
        · rw [min_eq_right h]; exact List.mem_cons_of_mem v hmem
      · intro u hu
        rcases List.mem_cons.1 hu with h | hu2
        · rw [h]; exact min_le_left v m
        · exact le_trans (min_le_right v m) (hle u hu2)

theorem mem_finiteVals_of_cellAt? {g : WGrid} {i j : ℕ} {v : ℝ}
    (h : cellAt? g i j = some (Wx.fin v)) : v ∈ finiteVals g := by
  simp only [cellAt?] at h
  cases hg : g[i]? with
  | none => rw [hg] at h; simp at h
  | some r =>
    rw [hg] at h
    simp only [Option.some_bind] at h
    have hrmem : r ∈ g := List.getElem?_mem hg
    have hxmem : Wx.fin v ∈ r := List.getElem?_mem h
    unfold finiteVals
    rw [List.mem_filterMap]
    exact ⟨Wx.fin v, List.mem_flatten_of_mem hrmem hxmem, rfl⟩

theorem cellAt?_of_mem_finiteVals {g : WGrid} {v : ℝ}
    (h : v ∈ finiteVals g) : ∃ i j, cellAt? g i j = some (Wx.fin v) := by
  unfold finiteVals at h
  rw [List.mem_filterMap] at h
  rcases h with ⟨x, hx, hfx⟩
  have hxv : x = Wx.fin v := by
    cases x with
    | nan => simp at hfx
    | fin w => simpa using congrArg (Option.map Wx.fin) hfx
  subst hxv
  rw [List.mem_flatten] at hx
  rcases hx with ⟨r, hr, hxr⟩
  rcases List.mem_iff_getElem?.1 hr with ⟨i, hi⟩
  rcases List.mem_iff_getElem?.1 hxr with ⟨j, hj⟩
  exact ⟨i, j, by simp [cellAt?, hi, hj]⟩

end WT

namespace WT

open Grid

theorem cellAt?_correctionStep (g : WGrid) (i j : ℕ) :
    cellAt? (correctionStep g) i j =
      (cellAt? g i j).map (fun x =>
        match Wx.sub x (nanmin g) with
        | Wx.nan => Wx.nan
        | Wx.fin v => if v < 1 then Wx.fin 0 else Wx.fin v) := by
  unfold correctionStep
  rw [cellAt?_map2, cellAt?_map2, Option.map_map]
  rfl

end WT

/-- Claim C9: the correction-offset step, applied to any grid with at least
one finite value, produces a grid whose minimum finite value is exactly 0
(0 is attained and every finite value is nonnegative) and which has no
finite value strictly between 0 and 1. -/
theorem claim_C9 (g : WT.WGrid)
    (hfin : ∃ i j v, Grid.cellAt? g i j = some (WT.Wx.fin v)) :
    (∃ i j, Grid.cellAt? (WT.correctionStep g) i j = some (WT.Wx.fin 0)) ∧
      (∀ i j v, Grid.cellAt? (WT.correctionStep g) i j = some (WT.Wx.fin v) →
        0 ≤ v ∧ ¬(0 < v ∧ v < 1)) := by
  open WT in
  obtain ⟨i0, j0, v0, hv0⟩ := hfin
  have hne : WT.finiteVals g ≠ [] :=
    List.ne_nil_of_mem (WT.mem_finiteVals_of_cellAt? hv0)
  obtain ⟨m, hm, hmmem, hmle⟩ := WT.listMin_spec (WT.finiteVals g) hne
  have hnm : WT.nanmin g = WT.Wx.fin m := by rw [WT.nanmin, hm]
  constructor
  · obtain ⟨i, j, hij⟩ := WT.cellAt?_of_mem_finiteVals hmmem
    refine ⟨i, j, ?_⟩
    rw [WT.cellAt?_correctionStep, hij, hnm]
    simp [WT.Wx.sub, zero_lt_one]
  · intro i j v h
    rw [WT.cellAt?_correctionStep] at h
    cases hx : Grid.cellAt? g i j with
    | none => rw [hx] at h; simp at h
    | some x =>
      rw [hx] at h
      cases x with
      | nan => simp [WT.Wx.sub] at h
      | fin w =>
        rw [hnm] at h
        simp only [WT.Wx.sub, Option.map_some'] at h
        have hmw : m ≤ w := hmle w (WT.mem_finiteVals_of_cellAt? hx)
        by_cases hlt : w - m < 1
        · rw [if_pos hlt] at h
          have hv : v = 0 := by
            have := Option.some.inj h
            simpa using (WT.Wx.fin.inj this).symm
          rw [hv]
          exact ⟨le_refl 0, by intro hc; exact absurd hc.1 (lt_irrefl 0)⟩
        · rw [if_neg hlt] at h
          have hv : v = w - m := by
            have := Option.some.inj h
            simpa using (WT.Wx.fin.inj this).symm
          constructor
          · rw [hv]; linarith
          · rintro ⟨_, hc2⟩
            rw [hv] at hc2
            exact hlt hc2

/-- Witness for claim C9 on a concrete one-pixel grid. -/
theorem claim_C9_witness :
    (∃ i j, Grid.cellAt? (WT.correctionStep [[WT.Wx.fin 5]]) i j
        = some (WT.Wx.fin 0)) ∧
      (∀ i j v, Grid.cellAt? (WT.correctionStep [[WT.Wx.fin 5]]) i j
          = some (WT.Wx.fin v) → 0 ≤ v ∧ ¬(0 < v ∧ v < 1)) :=
  claim_C9 [[WT.Wx.fin 5]] ⟨0, 0, 5, rfl⟩

/-- Claim C3 is false on the code: the os.remove calls (lines 254-255) run
only after the external output has been read successfully; they are not in a
finally block.  In a run where the external program leaves no readable
output file, images.load raises, the call aborts with the read failure, and
the input temporary file written before the external call is still on disk
when the call completes. -/
theorem claim_C3_counterexample :
    (WT.clean_image ⟨false, false, none, false, "linear", false⟩
        ⟨fun _ => 0, true, fun _ => none, id⟩ [[WT.Wx.fin 1]]).result
      = Except.error WT.WtErr.loadFailed ∧
    (WT.clean_image ⟨false, false, none, false, "linear", false⟩
        ⟨fun _ => 0, true, fun _ => none, id⟩ [[WT.Wx.fin 1]]).inFileRemains
      = true :=
  ⟨rfl, rfl⟩

/-- Claim C3 amended: when the input file is written and the external output
file is read successfully, both temporary files are deleted before the
dimension check and the NaN restoration, so they are gone even when a later
step raises; but a failure writing the input file or reading the output file
propagates before any deletion (in the latter case the input file remains on
disk). -/
theorem claim_C3_amended (p : WT.WtParams) (env : WT.WtEnv) (img : WT.WGrid)
    (hs : env.saveOk = true)
    (hext : ∀ g, env.extProgram g ≠ none) :
    (WT.clean_image p env img).inFileRemains = false ∧
      (WT.clean_image p env img).outFileRemains = false := by
  unfold WT.clean_image
  rw [hs]
  cases hout : env.extProgram (WT.applyScale p.input_image_scale
      (match p.offset_after_calibration with
        | some o => Grid.map2 (WT.Wx.add o)
            (if p.inject_noise then (WT.injectGrid env.noise img 0).1 else img)
        | none => if p.inject_noise then (WT.injectGrid env.noise img 0).1 else img)) with
  | none => exact absurd hout (hext _)
  | some out =>
    cases out with
    | d1 xs => simp [hout]
    | d3 c => simp [hout]
    | d2 g =>
      cases hres : WT.restoreNan g (Grid.map2 WT.Wx.isNan img) with
      | error e => simp [hout, hres]
      | ok g1 => simp [hout, hres]

/-- Witness for the amended claim C3 with an external program that echoes
its input. -/
theorem claim_C3_amended_witness :
    (WT.clean_image ⟨false, false, none, false, "linear", false⟩
        ⟨fun _ => 0, true, fun g => some (WT.NDOut.d2 g), id⟩
        [[WT.Wx.fin 1]]).inFileRemains = false ∧
      (WT.clean_image ⟨false, false, none, false, "linear", false⟩
          ⟨fun _ => 0, true, fun g => some (WT.NDOut.d2 g), id⟩
          [[WT.Wx.fin 1]]).outFileRemains = false :=
  claim_C3_amended _ _ _ rfl (fun _ h => Option.noConfusion h)

namespace WT

open Grid

theorem applyScale_log (g : WGrid) : applyScale "log" g = map2 Wx.log10 g := by
  unfold applyScale
  rw [if_pos rfl]

theorem invertScale_log (g : FGrid) :
    invertScale "log" g = map2 (Fx.powW 10) g := by
  unfold invertScale
  rw [if_pos rfl]

/-- The pixelwise value of the log-scale round trip with an identity
external program: 10 to the power log10 of the pixel.  A NaN or negative
pixel comes back invalid; a pixel at exactly 0 goes to minus infinity under
log10 and comes back as the finite value 0 (10 to the power minus infinity
is 0); a positive pixel comes back unchanged. -/
noncomputable def logRoundtrip : Wx → Wx
  | .nan => .nan
  | .fin v => if v < 0 then .nan else if v = 0 then .fin 0 else .fin v

theorem log_roundtrip_eq (img img1 : WGrid)
    (hlen : rowLens img1 = rowLens img)
    (hfin : ∀ i j v, cellAt? img i j = some (Wx.fin v) →
      cellAt? img1 i j = some (Wx.fin v)) :
    invertScale "log" (zip2 (fun x b => if b then Fx.nan else x)
        (applyScale "log" img1) (map2 Wx.isNan img))
      = map2 logRoundtrip img := by
  rw [invertScale_log, applyScale_log]
  have h1 : rowLens (map2 Wx.log10 img1) = rowLens img := by
    rw [rowLens_map2, hlen]
  apply grid_ext
  · rw [rowLens_map2, Tailcut.rowLens_zip2 _ _ _ (by rw [h1, rowLens_map2]), h1,
      rowLens_map2]
  · intro i j
    rw [cellAt?_map2, cellAt?_zip2, cellAt?_map2, cellAt?_map2, cellAt?_map2]
    cases hx : cellAt? img i j with
    | none =>
      have h2 : cellAt? img1 i j = none := by
        have := isSome_cellAt?_of_rowLens hlen i j
        rw [hx] at this
        simpa using this
      rw [h2]
      rfl
    | some x =>
      have hs1 : (cellAt? img1 i j).isSome = true := by
        have := isSome_cellAt?_of_rowLens hlen i j
        rw [hx] at this
        simpa using this
      cases x with
      | nan =>
        rcases Option.isSome_iff_exists.1 hs1 with ⟨y, hy⟩
        rw [hy]
        rfl
      | fin v =>
        rw [hfin i j v hx]
        simp only [Option.map_some']
        rcases lt_trichotomy v 0 with hv | hv | hv
        · rw [show Wx.log10 (Wx.fin v) = Fx.nan by
              rw [Wx.log10, if_pos hv],
            show logRoundtrip (Wx.fin v) = Wx.nan by
              rw [logRoundtrip, if_pos hv]]
          rfl
        · rw [show Wx.log10 (Wx.fin v) = Fx.ninf by
              rw [Wx.log10, if_neg (by rw [hv]; exact lt_irrefl 0), if_pos hv],
            show logRoundtrip (Wx.fin v) = Wx.fin 0 by
              rw [logRoundtrip, if_neg (by rw [hv]; exact lt_irrefl 0), if_pos hv]]
          rfl
        · have hnlt : ¬ v < 0 := not_lt_of_gt hv
          have hne : ¬ v = 0 := ne_of_gt hv
          rw [show Wx.log10 (Wx.fin v) = Fx.fin (Real.logb 10 v) by
              rw [Wx.log10, if_neg hnlt, if_neg hne],
            show logRoundtrip (Wx.fin v) = Wx.fin v by
              rw [logRoundtrip, if_neg hnlt, if_neg hne]]
          have hrt : (10 : ℝ) ^ Real.logb 10 v = v :=
            Real.rpow_logb (by norm_num) (by norm_num) hv
          simp only [Wx.isNan, Bool.false_eq_true, if_false, Fx.powW, hrt]

end WT

/-- Claim C8 is false on the code at pixels whose value is exactly 0:
np.log10(0) is minus infinity, not NaN (line 165's comment is wrong about
the boundary), the identity external program echoes it, the restoration at
line 264 does not touch the pixel (it was not NaN in the input), and
np.power(10., -inf) at line 271 is the finite value 0.0 — equal to the
input — so the pixel is not invalid in the output.  The run below, with log
scale and an identity external program on the one-pixel image holding 0,
returns the finite pixel 0. -/
theorem claim_C8_counterexample :
    (WT.clean_image ⟨false, false, none, false, "log", false⟩
        ⟨fun _ => 0, true, fun g => some (WT.NDOut.d2 g), id⟩
        [[WT.Wx.fin 0]]).result
      = Except.ok [[WT.Wx.fin 0]] ∧ WT.Wx.fin 0 ≠ WT.Wx.nan := by
  refine ⟨?_, fun h => WT.Wx.noConfusion h⟩
  have hl0 : WT.Wx.log10 (WT.Wx.fin 0) = WT.Fx.ninf := by
    rw [WT.Wx.log10, if_neg (lt_irrefl (0 : ℝ)), if_pos rfl]
  have hm : Grid.map2 WT.Wx.isNan [[WT.Wx.fin 0]] = [[false]] := rfl
  have h3 : WT.applyScale "log" [[WT.Wx.fin 0]] = [[WT.Fx.ninf]] := by
    rw [WT.applyScale_log]
    show [[WT.Wx.log10 (WT.Wx.fin 0)]] = [[WT.Fx.ninf]]
    rw [hl0]
  have hres : WT.restoreNan [[WT.Fx.ninf]] [[false]]
      = Except.ok [[WT.Fx.ninf]] := rfl
  have hinv : WT.invertScale "log" [[WT.Fx.ninf]] = [[WT.Wx.fin 0]] := by
    rw [WT.invertScale_log]
    rfl
  unfold WT.clean_image
  simp only [hm, h3, hres, hinv, Bool.false_eq_true, Bool.true_eq_false,
    if_false]

/-- Claim C8 amended: with input_image_scale log, no calibration offset, the
suppress-last-scale, correction-offset and kill-isolated-pixels options
unset, and the external program behaving as the identity on its input file,
WaveletTransform.clean_image returns 10 to the power log10 of the input:
every pixel with a positive value is returned unchanged, every pixel that is
NaN or strictly negative comes back invalid, and a pixel whose value is
exactly 0 comes back as the finite value 0 (log10 gives minus infinity and
10 to that power is 0), not invalid. -/
theorem claim_C8 (p : WT.WtParams) (env : WT.WtEnv) (img : WT.WGrid)
    (hscale : p.input_image_scale = "log")
    (hoff : p.offset_after_calibration = none)
    (_hsup : p.suppress_last_scale = false)
    (hcorr : p.correction_offset = false)
    (hkill : p.kill_isolated_pixels = false)
    (hsave : env.saveOk = true)
    (hext : ∀ g, env.extProgram g = some (WT.NDOut.d2 g)) :
    (WT.clean_image p env img).result
      = Except.ok (Grid.map2 WT.logRoundtrip img) := by
  open WT Grid in
  have hlen1 : rowLens (if p.inject_noise
      then (WT.injectGrid env.noise img 0).1 else img) = rowLens img := by
    cases p.inject_noise <;> simp [WT.rowLens_injectGrid]
  have hfin1 : ∀ i j v, cellAt? img i j = some (WT.Wx.fin v) →
      cellAt? (if p.inject_noise then (WT.injectGrid env.noise img 0).1 else img)
        i j = some (WT.Wx.fin v) := by
    cases hpn : p.inject_noise with
    | false => intro i j v h; simpa using h
    | true => intro i j v h; simpa using WT.injectGrid_fin env.noise img 0 i j v h
  have hres : WT.restoreNan
      (WT.applyScale "log" (if p.inject_noise
        then (WT.injectGrid env.noise img 0).1 else img))
      (Grid.map2 WT.Wx.isNan img)
      = Except.ok (Grid.zip2 (fun x b => if b then WT.Fx.nan else x)
          (WT.applyScale "log" (if p.inject_noise
            then (WT.injectGrid env.noise img 0).1 else img))
          (Grid.map2 WT.Wx.isNan img)) := by
    unfold WT.restoreNan
    rw [if_pos (by rw [WT.rowLens_applyScale, hlen1, Grid.rowLens_map2])]
  unfold WT.clean_image
  rw [hsave, hoff, hscale]
  simp only [hext, hres, hkill, hcorr, Bool.false_eq_true, if_false]
  rw [WT.log_roundtrip_eq img _ hlen1 hfin1]
  rfl

/-- Witness for claim C8 on a concrete image holding a positive, a negative
and an invalid pixel. -/
theorem claim_C8_witness :
    (WT.clean_image ⟨false, false, none, false, "log", false⟩
        ⟨fun _ => 0, true, fun g => some (WT.NDOut.d2 g), id⟩
        [[WT.Wx.fin 10, WT.Wx.fin (-3), WT.Wx.nan]]).result
      = Except.ok (Grid.map2 WT.logRoundtrip
          [[WT.Wx.fin 10, WT.Wx.fin (-3), WT.Wx.nan]]) :=
  claim_C8 _ _ _ rfl rfl rfl rfl rfl rfl (fun _ => rfl)

namespace WT

open Grid

/-- The pixel at position (i, j) exists and is invalid (image domain). -/
def isNanAt (g : WGrid) (i j : ℕ) : Prop := cellAt? g i j = some Wx.nan

/-- The cell at position (i, j) exists and is invalid (file domain). -/
def isNanAtF (g : FGrid) (i j : ℕ) : Prop := cellAt? g i j = some Fx.nan

theorem cell_mem_flatten {g : TGrid α} {i j : ℕ} {x : α}
    (hx : cellAt? g i j = some x) : x ∈ g.flatten := by
  simp only [cellAt?] at hx
  cases hgi : g[i]? with
  | none => rw [hgi] at hx; simp at hx
  | some r =>
    rw [hgi] at hx
    simp only [Option.some_bind] at hx
    exact List.mem_flatten_of_mem (List.getElem?_mem hgi) (List.getElem?_mem hx)

theorem isNanAt_map2_powW (b : ℝ) (g : FGrid) (i j : ℕ) :
    isNanAt (map2 (Fx.powW b) g) i j ↔ isNanAtF g i j := by
  unfold isNanAt isNanAtF
  rw [cellAt?_map2]
  cases hx : cellAt? g i j with
  | none => simp
  | some x => cases x <;> simp [Fx.powW]

theorem isNanAt_invertScale (s : String) (g : FGrid) (i j : ℕ)
    (hninf : ∀ x ∈ g.flatten, x ≠ Fx.ninf) :
    isNanAt (invertScale s g) i j ↔ isNanAtF g i j := by
  unfold invertScale
  split_ifs
  · rw [isNanAt_map2_powW]
  · rw [isNanAt_map2_powW]
  · unfold isNanAt isNanAtF
    rw [cellAt?_map2]
    cases hx : cellAt? g i j with
    | none => simp
    | some x =>
      cases x with
      | nan => simp [Fx.toWx]
      | ninf => exact absurd rfl (hninf _ (cell_mem_flatten hx))
      | fin v => simp [Fx.toWx]

theorem isNanAt_map2_sub (o : ℝ) (g : WGrid) (i j : ℕ) :
    isNanAt (map2 (fun x => Wx.sub x (Wx.fin o)) g) i j ↔ isNanAt g i j := by
  unfold isNanAt
  rw [cellAt?_map2]
  cases hx : cellAt? g i j with
  | none => simp
  | some x => cases x <;> simp [Wx.sub]

theorem nanmin_ne_nan_of_fin {g : WGrid} {i j : ℕ} {v : ℝ}
    (h : cellAt? g i j = some (Wx.fin v)) : nanmin g ≠ Wx.nan := by
  have hmem := mem_finiteVals_of_cellAt? h
  obtain ⟨m, hm, _, _⟩ := listMin_spec _ (List.ne_nil_of_mem hmem)
  rw [nanmin, hm]
  intro hc
  exact Wx.noConfusion hc

theorem isNanAt_correctionStep (g : WGrid) (i j : ℕ) :
    isNanAt (correctionStep g) i j ↔ isNanAt g i j := by
  unfold isNanAt
  rw [cellAt?_correctionStep]
  cases hx : cellAt? g i j with
  | none => simp
  | some x =>
    cases x with
    | nan => simp [Wx.sub]
    | fin w =>
      simp only [Option.map_some', Option.some.injEq]
      constructor
      · intro hc
        exfalso
        cases hnm : nanmin g with
        | nan => exact nanmin_ne_nan_of_fin hx hnm
        | fin m =>
          rw [hnm] at hc
          simp only [Wx.sub] at hc
          by_cases hlt : w - m < 1
          · rw [if_pos hlt] at hc; exact Wx.noConfusion hc
          · rw [if_neg hlt] at hc; exact Wx.noConfusion hc
      · intro hc
        exact absurd hc.symm (Wx.noConfusion)

theorem isNanAt_restore (gext : FGrid) (img : WGrid) (i j : ℕ)
    (hshape : rowLens gext = rowLens img)
    (hfin : ∀ x ∈ gext.flatten, ∃ v, x = Fx.fin v) :
    (isNanAtF (zip2 (fun x b => if b then Fx.nan else x) gext
        (map2 Wx.isNan img)) i j ↔ isNanAt img i j) := by
  unfold isNanAt isNanAtF
  rw [cellAt?_zip2, cellAt?_map2]
  cases hx : cellAt? img i j with
  | none =>
    have hge : cellAt? gext i j = none := by
      have := isSome_cellAt?_of_rowLens hshape i j
      rw [hx] at this
      simpa using this
    rw [hge]
    simp
  | some x =>
    have hs1 : (cellAt? gext i j).isSome = true := by
      have := isSome_cellAt?_of_rowLens hshape i j
      rw [hx] at this
      simpa using this
    rcases Option.isSome_iff_exists.1 hs1 with ⟨y, hy⟩
    rw [hy]
    rcases hfin y (cell_mem_flatten hy) with ⟨v, rfl⟩
    cases x with
    | nan => simp [Wx.isNan]
    | fin w =>
      simp only [Wx.isNan, Option.map_some', Bool.false_eq_true, if_false,
        Option.some.injEq]
      constructor
      · intro hc; exact absurd hc (fun h => Fx.noConfusion h)
      · intro hc; exact absurd hc.symm (Wx.noConfusion)

/-- The restoration output carries no minus infinity when the external grid
is all-finite: each cell is either the forced invalid marker or a cell of
the external grid. -/
theorem restore_no_ninf (gext : FGrid) (mask : TGrid Bool)
    (hfin : ∀ x ∈ gext.flatten, ∃ v, x = Fx.fin v) :
    ∀ x ∈ (zip2 (fun x b => if b then Fx.nan else x) gext mask).flatten,
      x ≠ Fx.ninf := by
  intro x hx
  rw [List.mem_flatten] at hx
  obtain ⟨r, hr, hxr⟩ := hx
  obtain ⟨rg, hrg, rm, hrm, rfl⟩ := Tailcut.zipWith_mem _ gext mask r hr
  obtain ⟨a, ha, b, hb, rfl⟩ := Tailcut.zipWith_mem _ rg rm x hxr
  cases b with
  | true => exact fun h => Fx.noConfusion h
  | false =>
    rcases hfin a (List.mem_flatten_of_mem hrg ha) with ⟨v, rfl⟩
    exact fun h => Fx.noConfusion h

end WT

/-- Claim C1 is false as stated: the restoration step only forces NaN at
positions that were NaN in the input, it does not prevent the external
program from introducing NaN at other positions.  With a linear scale, an
input whose NaN set is the single position (0,0), and a mocked external
program writing a grid that is finite at that position but NaN at (0,1),
the returned image is NaN at (0,1) although the input was finite there — so
the output's NaN set is a strict superset of the input's, not equal to it. -/
theorem claim_C1_counterexample :
    (WT.clean_image ⟨false, false, none, false, "linear", false⟩
        ⟨fun _ => 0, true,
          fun _ => some (WT.NDOut.d2 [[WT.Fx.fin 3, WT.Fx.nan]]), id⟩
        [[WT.Wx.nan, WT.Wx.fin 5]]).result
      = Except.ok [[WT.Wx.nan, WT.Wx.nan]] ∧
    Grid.cellAt? [[WT.Wx.nan, WT.Wx.fin 5]] 0 1 = some (WT.Wx.fin 5) ∧
    Grid.cellAt? [[WT.Fx.fin 3, WT.Fx.nan]] 0 0 = some (WT.Fx.fin 3) :=
  ⟨rfl, rfl, rfl⟩

/-- Claim C1 amended: when the mocked external program writes a same-shaped
2-D grid that is finite at every position (not only at the input's NaN
positions), the pipeline returns normally and the output is NaN exactly at
the positions that were NaN in the input: the NaN mask is recorded before
noise injection and scaling, NaN is forced back before scale inversion,
offset inversion and correction offset, and none of those steps turns a NaN
finite or a finite value NaN.  If the external grid may carry NaN at other
positions, only the inclusion holds: every input-NaN position is NaN in the
output. -/
theorem claim_C1_amended (p : WT.WtParams) (env : WT.WtEnv) (img : WT.WGrid)
    (gext : WT.FGrid)
    (hkill : p.kill_isolated_pixels = false)
    (hsave : env.saveOk = true)
    (hext : ∀ g, env.extProgram g = some (WT.NDOut.d2 gext))
    (hshape : Grid.rowLens gext = Grid.rowLens img)
    (hfin : ∀ x ∈ gext.flatten, ∃ v, x = WT.Fx.fin v) :
    ∃ out, (WT.clean_image p env img).result = Except.ok out ∧
      ∀ i j, WT.isNanAt out i j ↔ WT.isNanAt img i j := by
  open WT Grid in
  have hres : WT.restoreNan gext (Grid.map2 WT.Wx.isNan img)
      = Except.ok (Grid.zip2 (fun x b => if b then WT.Fx.nan else x) gext
          (Grid.map2 WT.Wx.isNan img)) := by
    unfold WT.restoreNan
    rw [if_pos (by rw [Grid.rowLens_map2, hshape])]
  unfold WT.clean_image
  rw [hsave]
  simp only [hext, hres, hkill, Bool.false_eq_true, if_false]
  refine ⟨_, rfl, ?_⟩
  intro i j
  set g1 := Grid.zip2 (fun x b => if b then WT.Fx.nan else x) gext
    (Grid.map2 WT.Wx.isNan img) with hg1
  have h2 : ∀ i j, WT.isNanAt (WT.invertScale p.input_image_scale g1) i j ↔
      WT.isNanAt img i j := by
    intro a b
    rw [WT.isNanAt_invertScale _ _ _ _
      (WT.restore_no_ninf gext (Grid.map2 WT.Wx.isNan img) hfin)]
    exact WT.isNanAt_restore gext img a b hshape hfin
  set g2 := WT.invertScale p.input_image_scale g1 with hg2
  have h3 : ∀ i j, WT.isNanAt (match p.offset_after_calibration with
      | some o => if p.suppress_last_scale then g2
          else Grid.map2 (fun x => WT.Wx.sub x (WT.Wx.fin o)) g2
      | none => g2) i j ↔ WT.isNanAt img i j := by
    intro a b
    cases p.offset_after_calibration with
    | none => exact h2 a b
    | some o =>
      cases p.suppress_last_scale with
      | true => simpa using h2 a b
      | false =>
        simp only [Bool.false_eq_true, if_false]
        rw [WT.isNanAt_map2_sub]
        exact h2 a b
  cases hco : p.correction_offset with
  | false => simpa using h3 i j
  | true =>
    simp only [if_true]
    rw [WT.isNanAt_correctionStep]
    exact h3 i j

/-- Witness for the amended claim C1: external program mocked to write a
fixed all-finite grid of the input's shape. -/
theorem claim_C1_amended_witness :
    ∃ out, (WT.clean_image ⟨false, false, none, false, "linear", false⟩
        ⟨fun _ => 0, true,
          fun _ => some (WT.NDOut.d2 [[WT.Fx.fin 1, WT.Fx.fin 2]]), id⟩
        [[WT.Wx.nan, WT.Wx.fin 5]]).result = Except.ok out ∧
      ∀ i j, WT.isNanAt out i j ↔ WT.isNanAt [[WT.Wx.nan, WT.Wx.fin 5]] i j :=
  claim_C1_amended _ _ _ [[WT.Fx.fin 1, WT.Fx.fin 2]] rfl rfl (fun _ => rfl) rfl
    (by
      intro x hx
      simp only [List.flatten, List.mem_cons, List.append_nil] at hx
      rcases hx with rfl | hx2
      · exact ⟨1, rfl⟩
      · rcases List.mem_singleton.1 (by simpa using hx2) with rfl
        exact ⟨2, rfl⟩)

namespace Tailcut

/-- The shape of an array in its first two axes: row count and row widths
(for rank 0 and 1 only the element count). -/
def outerShape : NDArray → ℕ × List ℕ
  | .d0 _ => (0, [])
  | .d1 xs => (xs.length, [])
  | .dN g => (g.length, Grid.rowLens g)

end Tailcut

namespace WT

open Grid

theorem rowLens_offsetStep (p : WtParams) (g2 : WGrid) :
    rowLens (match p.offset_after_calibration with
      | some o => if p.suppress_last_scale then g2
          else map2 (fun x => Wx.sub x (Wx.fin o)) g2
      | none => g2) = rowLens g2 := by
  cases p.offset_after_calibration with
  | none => rfl
  | some o =>
    cases p.suppress_last_scale with
    | true => simp
    | false => simp

end WT

/-- Claim C2: every cleaning call that returns a grid returns one with the
input's shape.  For Tailcut this holds for every input array of any rank
(rank 0 and 1 raise, so nothing is returned there); for WaveletTransform it
holds for every 2-D input and every external-program behavior — when the
external program writes a 2-D grid of a different shape, the restoration
step raises, so no grid is returned; the code indeed checks only that the
external output is 2-dimensional, never that its shape matches the input.
The kill-isolated-pixels collaborator (not part of the cleaning sources) is
assumed shape-preserving, as the specification requires of every cleaning
operation. -/
theorem claim_C2 :
    (∀ (a : Tailcut.NDArray) (hi lo : ℚ) (out : Tailcut.NDArray),
        Tailcut.clean_image_nd a hi lo = Except.ok out →
        Tailcut.outerShape out = Tailcut.outerShape a) ∧
    (∀ (p : WT.WtParams) (env : WT.WtEnv) (img : WT.WGrid) (out : WT.WGrid),
        (∀ g, Grid.rowLens (env.killFn g) = Grid.rowLens g) →
        (WT.clean_image p env img).result = Except.ok out →
        Grid.rowLens out = Grid.rowLens img) := by
  constructor
  · intro a hi lo out h
    cases a with
    | d0 x => exact absurd h (by simp [Tailcut.clean_image_nd])
    | d1 xs => exact absurd h (by simp [Tailcut.clean_image_nd])
    | dN g =>
      have hout : out = Tailcut.NDArray.dN (Tailcut.cleanCore Tailcut.blockOps g hi lo) := by
        simpa [Tailcut.clean_image_nd] using h.symm
      subst hout
      have hrl := Tailcut.rowLens_cleanCore Tailcut.blockOps g hi lo
      have hlen : (Tailcut.cleanCore Tailcut.blockOps g hi lo).length = g.length := by
        have := congrArg List.length hrl
        simpa [Grid.rowLens] using this
      simp [Tailcut.outerShape, hrl, hlen]
  · intro p env img out hk h
    simp only [WT.clean_image] at h
    by_cases hsv : env.saveOk = false
    · rw [if_pos hsv] at h
      exact absurd h (by simp)
    · rw [if_neg hsv] at h
      cases hout : env.extProgram (WT.applyScale p.input_image_scale
          (match p.offset_after_calibration with
            | some o => Grid.map2 (WT.Wx.add o)
                (if p.inject_noise then (WT.injectGrid env.noise img 0).1 else img)
            | none => if p.inject_noise
                then (WT.injectGrid env.noise img 0).1 else img)) with
      | none =>
        rw [hout] at h
        exact absurd h (by simp)
      | some o =>
        rw [hout] at h
        cases o with
        | d1 xs => exact absurd h (by simp)
        | d3 c => exact absurd h (by simp)
        | d2 g =>
          cases hres : WT.restoreNan g (Grid.map2 WT.Wx.isNan img) with
          | error e =>
            simp [hres] at h
          | ok g1 =>
            simp only [hres, Except.ok.injEq] at h
            obtain ⟨hsh, hg1⟩ := WT.restoreNan_ok hres
            have hrg1 : Grid.rowLens g1 = Grid.rowLens img := by
              rw [hg1, Tailcut.rowLens_zip2 _ _ _ hsh, hsh, Grid.rowLens_map2]
            rw [← h]
            have hr2 : Grid.rowLens (WT.invertScale p.input_image_scale g1)
                = Grid.rowLens img := by
              rw [WT.rowLens_invertScale, hrg1]
            have hr3 : Grid.rowLens (match p.offset_after_calibration with
                | some o => if p.suppress_last_scale
                    then WT.invertScale p.input_image_scale g1
                    else Grid.map2 (fun x => WT.Wx.sub x (WT.Wx.fin o))
                      (WT.invertScale p.input_image_scale g1)
                | none => WT.invertScale p.input_image_scale g1)
                = Grid.rowLens img := by
              rw [WT.rowLens_offsetStep p _, hr2]
            cases hco : p.correction_offset with
            | false =>
              cases hki : p.kill_isolated_pixels with
              | false => simpa using hr3
              | true => simp only [if_true]; rw [hk]; simpa using hr3
            | true =>
              cases hki : p.kill_isolated_pixels with
              | false =>
                simp only [if_true, Bool.false_eq_true, if_false]
                rw [WT.rowLens_correctionStep]
                exact hr3
              | true =>
                simp only [if_true]
                rw [hk, WT.rowLens_correctionStep]
                exact hr3

/-- Witness for claim C2: the Tailcut half at a concrete rank-2 array, the
WaveletTransform half at a concrete run with an identity external program
and identity kill collaborator. -/
theorem claim_C2_witness :
    Tailcut.outerShape (Tailcut.NDArray.dN
        (Tailcut.cleanCore Tailcut.blockOps
          [[Tailcut.Block.leaf (Tailcut.Px.fin 7)]] 10 5))
      = Tailcut.outerShape (Tailcut.NDArray.dN
          [[Tailcut.Block.leaf (Tailcut.Px.fin 7)]]) ∧
    Grid.rowLens [[WT.Wx.fin 2]] = Grid.rowLens [[WT.Wx.fin 2]] :=
  ⟨claim_C2.1 (Tailcut.NDArray.dN [[Tailcut.Block.leaf (Tailcut.Px.fin 7)]])
      10 5 _ rfl,
    claim_C2.2 ⟨false, false, none, false, "linear", false⟩
      ⟨fun _ => 0, true, fun g => some (WT.NDOut.d2 g), id⟩
      [[WT.Wx.fin 2]] [[WT.Wx.fin 2]] (fun _ => rfl) rfl⟩
